import Mathlib

/-!
Verification development for the cerium incremental type-checker.

The definitions below are a shallow embedding of
`src/project/framework/src/{definitions,ast,standard_type_checker,ddlog_interface}.rs`:
Rust `HashMap`s become association lists (key-unique, insertion-ordered, with
replace-on-insert semantics), `HashSet`s become `Finset`s, panics become `none`
(`Option`), and recursion through arena ids is guarded by an explicit fuel
parameter (fuel exhaustion also yields `none`; all theorems are stated for
sufficiently large fuel, so the guard never hides behaviour).
-/

namespace Cerium

/-- `type ID = i32` from `definitions.rs` (arithmetic in the claims never
approaches the i32 range, so overflow is not modelled). -/
abbrev ID := Int

/-- The relation type from `definitions.rs` (`enum AstRelation`), extended
with the `If`/`IfElse`/`While` statement variants that `ast.rs` and
`standard_type_checker.rs` pattern-match on (the checked-in `definitions.rs`
predates them; their field layout follows the uses in `ast.rs` and §3 of the
spec). -/
inductive AstRelation where
  | TransUnit (id : ID) (body_ids : List ID)
  | FunDef (id : ID) (fun_name : String) (return_type_id : ID) (arg_ids : List ID) (body_id : ID)
  | FunCall (id : ID) (fun_name : String) (arg_ids : List ID)
  | Assign (id : ID) (var_name : String) (type_id : ID) (expr_id : ID)
  | Return (id : ID) (expr_id : ID)
  | If (id : ID) (cond_id : ID) (then_id : ID)
  | IfElse (id : ID) (cond_id : ID) (then_id : ID) (else_id : ID)
  | While (id : ID) (cond_id : ID) (body_id : ID)
  | Compound (id : ID) (start_id : ID)
  | Item (id : ID) (stmt_id : ID) (next_stmt_id : ID)
  | EndItem (id : ID) (stmt_id : ID)
  | BinaryOp (id : ID) (arg1_id : ID) (arg2_id : ID)
  | Var (id : ID) (var_name : String)
  | Arg (id : ID) (var_name : String) (type_id : ID)
  | Void (id : ID)
  | Int (id : ID)
  | Float (id : ID)
  | Char (id : ID)
deriving DecidableEq, Repr

/-- `struct AstNode` from `ast.rs` (the `Location` placeholder field carries
no data and is dropped). -/
structure AstNode where
  node_id : ID
  relation : AstRelation
  children : List ID
deriving DecidableEq, Repr

/-- `AstNode::new`. -/
def AstNode.new (node_id : ID) (relation : AstRelation) : AstNode :=
  ⟨node_id, relation, []⟩

/-- `AstNode::link_child`. -/
def AstNode.linkChild (n : AstNode) (child_id : ID) : AstNode :=
  { n with children := n.children ++ [child_id] }

/-- `AstNode::replace_children`. -/
def AstNode.replaceChildren (n : AstNode) (child_ids : List ID) : AstNode :=
  { n with children := child_ids }

/-- Association-list model of `HashMap<ID, AstNode>`: first binding wins on
lookup; keys are kept unique by `insertA`. -/
abbrev Arena := List (ID × AstNode)

/-- Lookup in the arena (`HashMap::get`). -/
def lookupA (a : Arena) (i : ID) : Option AstNode :=
  match a with
  | [] => none
  | (k, v) :: rest => if k = i then some v else lookupA rest i

/-- `HashMap::insert`: replace the value in place when the key is present,
append otherwise. -/
def insertA (a : Arena) (i : ID) (v : AstNode) : Arena :=
  match a with
  | [] => [(i, v)]
  | (k, w) :: rest => if k = i then (k, v) :: rest else (k, w) :: insertA rest i v

/-- `HashMap::remove`. -/
def removeA (a : Arena) (i : ID) : Arena :=
  match a with
  | [] => []
  | (k, w) :: rest => if k = i then rest else (k, w) :: removeA rest i

/-- Apply an update to the node stored at a key (used for `get_mut` call
sites); identity when the key is absent. -/
def modifyA (a : Arena) (i : ID) (f : AstNode → AstNode) : Arena :=
  match a with
  | [] => []
  | (k, w) :: rest => if k = i then (k, f w) :: rest else (k, w) :: modifyA rest i f

/-- `self.arena.keys().max()`. -/
def maxKey (a : Arena) : Option ID :=
  (a.map Prod.fst).max?

/-- `struct Tree` from `ast.rs`. -/
structure Tree where
  arena : Arena
  max_id : ID
  root_id : ID
deriving DecidableEq, Repr

namespace Tree

/-- `Tree::new`. -/
def new : Tree := ⟨[], 0, 0⟩

/-- `Tree::get_node` (panic on a missing id becomes `none`). -/
def getNode (t : Tree) (index : ID) : Option AstNode :=
  lookupA t.arena index

/-- `Tree::get_relation` (panic on a missing id becomes `none`). -/
def getRelation (t : Tree) (index : ID) : Option AstRelation :=
  (lookupA t.arena index).map AstNode.relation

/-- `Tree::add_node`. -/
def addNode (t : Tree) (node_id : ID) (relation : AstRelation) : Tree :=
  { t with
    arena := insertA t.arena node_id (AstNode.new node_id relation)
    max_id := if node_id > t.max_id then node_id else t.max_id }

/-- `Tree::add_root_node`. -/
def addRootNode (t : Tree) (node_id : ID) (relation : AstRelation) : Tree :=
  { t with
    arena := insertA t.arena node_id (AstNode.new node_id relation)
    root_id := node_id
    max_id := if node_id > t.max_id then node_id else t.max_id }

/-- `Tree::link_child` (no-op unless both nodes exist). -/
def linkChild (t : Tree) (node_id child_id : ID) : Tree :=
  if (lookupA t.arena node_id).isSome ∧ (lookupA t.arena child_id).isSome then
    { t with arena := modifyA t.arena node_id (fun n => n.linkChild child_id) }
  else t

/-- `Tree::replace_children` (no-op unless the node exists). -/
def replaceChildren (t : Tree) (node_id : ID) (child_ids : List ID) : Tree :=
  if (lookupA t.arena node_id).isSome then
    { t with arena := modifyA t.arena node_id (fun n => n.replaceChildren child_ids) }
  else t

/-- `Tree::get_root`. -/
def getRoot (t : Tree) : ID := t.root_id

/-- `Tree::update_relation` (no-op unless the node exists). -/
def updateRelation (t : Tree) (node_id : ID) (relation : AstRelation) : Tree :=
  if (lookupA t.arena node_id).isSome then
    { t with arena := modifyA t.arena node_id (fun n => { n with relation := relation }) }
  else t

/-- `Tree::delete_node`: removes the node and re-seats `max_id` from the
remaining keys; the `unwrap` of `keys().max()` panics (`none`) when the arena
became empty. -/
def deleteNode (t : Tree) (node_id : ID) : Option Tree :=
  let arena' := removeA t.arena node_id
  match maxKey arena' with
  | none => none
  | some m => some { t with arena := arena', max_id := m }

end Tree

/-- `get_initial_relation_set` from `ast.rs`. -/
def get_initial_relation_set (ast : Tree) : Finset AstRelation :=
  (ast.arena.map (fun p => p.2.relation)).toFinset

/-- `replace_id_in_relation` from `ast.rs` (panics on non-leaf relations). -/
def replace_id_in_relation (r : AstRelation) (id : ID) : Option AstRelation :=
  match r with
  | .Void _ => some (.Void id)
  | .Int _ => some (.Int id)
  | .Float _ => some (.Float id)
  | .Char _ => some (.Char id)
  | _ => none

/-- The `FunCall` argument loop of `relations_match`: the source iterates the
first list and indexes the second with the running position (an out-of-range
index panics), which is the lock-step walk below; a mismatch does not stop the
loop. The comparison of two argument relations is passed in as `rm`
(`relations_match` at the current fuel). -/
def relationsMatchArgs (rm : AstRelation → AstRelation → Option Bool) (t1 t2 : Tree) :
    List ID → List ID → Option Bool
  | [], _ => some true
  | _ :: _, [] => none
  | i1 :: rest1, i2 :: rest2 => do
    let r1 ← t1.getRelation i1
    let r2 ← t2.getRelation i2
    let b ← rm r1 r2
    let brest ← relationsMatchArgs rm t1 t2 rest1 rest2
    some (b && brest)

/-- `relations_match` from `ast.rs`. Rust's short-circuiting `&&` is kept (a
false left conjunct skips the arena lookups of the right conjunct). In the
`Assign` arm, the source's `return N && return T && return E` chain parses —
`return` taking its operand greedily — as `return (N && return (T && return
E))`, which compares the names, then the type subtrees, then the expression
subtrees, each step short-circuiting the next. The `FunCall` arm walks the
whole first argument list (no early exit) and only then conjoins the name
test, exactly as the source loop does. `FunDef`/`TransUnit` arms panic. -/
def relations_match (fuel : Nat) (r1 r2 : AstRelation) (t1 t2 : Tree) : Option Bool :=
  match fuel with
  | 0 => none
  | fuel + 1 =>
    match r1, r2 with
    | .Char _, .Char _ => some true
    | .Float _, .Float _ => some true
    | .Int _, .Int _ => some true
    | .Void _, .Void _ => some true
    | .Arg _ var_name1 type_id1, .Arg _ var_name2 type_id2 =>
      if var_name1 = var_name2 then do
        let c1 ← t1.getRelation type_id1
        let c2 ← t2.getRelation type_id2
        relations_match fuel c1 c2 t1 t2
      else some false
    | .Var _ var_name1, .Var _ var_name2 => some (var_name1 == var_name2)
    | .BinaryOp _ arg1_id1 arg2_id1, .BinaryOp _ arg1_id2 arg2_id2 => do
      let a1 ← t1.getRelation arg1_id1
      let a2 ← t2.getRelation arg1_id2
      let b ← relations_match fuel a1 a2 t1 t2
      if b then do
        let c1 ← t1.getRelation arg2_id1
        let c2 ← t2.getRelation arg2_id2
        relations_match fuel c1 c2 t1 t2
      else some false
    | .EndItem _ stmt_id1, .EndItem _ stmt_id2 => do
      let s1 ← t1.getRelation stmt_id1
      let s2 ← t2.getRelation stmt_id2
      relations_match fuel s1 s2 t1 t2
    | .Item _ stmt_id1 next_stmt_id1, .Item _ stmt_id2 next_stmt_id2 => do
      let s1 ← t1.getRelation stmt_id1
      let s2 ← t2.getRelation stmt_id2
      let b ← relations_match fuel s1 s2 t1 t2
      if b then do
        let n1 ← t1.getRelation next_stmt_id1
        let n2 ← t2.getRelation next_stmt_id2
        relations_match fuel n1 n2 t1 t2
      else some false
    | .Compound _ start_id1, .Compound _ start_id2 => do
      let s1 ← t1.getRelation start_id1
      let s2 ← t2.getRelation start_id2
      relations_match fuel s1 s2 t1 t2
    | .While _ cond_id1 body_id1, .While _ cond_id2 body_id2 => do
      let b1 ← t1.getRelation body_id1
      let b2 ← t2.getRelation body_id2
      let b ← relations_match fuel b1 b2 t1 t2
      if b then do
        let c1 ← t1.getRelation cond_id1
        let c2 ← t2.getRelation cond_id2
        relations_match fuel c1 c2 t1 t2
      else some false
    | .If _ cond_id1 then_id1, .If _ cond_id2 then_id2 => do
      let b1 ← t1.getRelation then_id1
      let b2 ← t2.getRelation then_id2
      let b ← relations_match fuel b1 b2 t1 t2
      if b then do
        let c1 ← t1.getRelation cond_id1
        let c2 ← t2.getRelation cond_id2
        relations_match fuel c1 c2 t1 t2
      else some false
    | .IfElse _ cond_id1 then_id1 else_id1, .IfElse _ cond_id2 then_id2 else_id2 => do
      let b1 ← t1.getRelation then_id1
      let b2 ← t2.getRelation then_id2
      let b ← relations_match fuel b1 b2 t1 t2
      if b then do
        let c1 ← t1.getRelation cond_id1
        let c2 ← t2.getRelation cond_id2
        let c ← relations_match fuel c1 c2 t1 t2
        if c then do
          let e1 ← t1.getRelation else_id1
          let e2 ← t2.getRelation else_id2
          relations_match fuel e1 e2 t1 t2
        else some false
      else some false
    | .Return _ expr_id1, .Return _ expr_id2 => do
      let e1 ← t1.getRelation expr_id1
      let e2 ← t2.getRelation expr_id2
      relations_match fuel e1 e2 t1 t2
    | .Assign _ var_name1 type_id1 expr_id1, .Assign _ var_name2 type_id2 expr_id2 =>
      if var_name1 = var_name2 then do
        let c1 ← t1.getRelation type_id1
        let c2 ← t2.getRelation type_id2
        let b ← relations_match fuel c1 c2 t1 t2
        if b then do
          let e1 ← t1.getRelation expr_id1
          let e2 ← t2.getRelation expr_id2
          relations_match fuel e1 e2 t1 t2
        else some false
      else some false
    | .FunCall _ fun_name1 arg_ids1, .FunCall _ fun_name2 arg_ids2 => do
      let args_result ← relationsMatchArgs
        (fun a b => relations_match fuel a b t1 t2) t1 t2 arg_ids1 arg_ids2
      some (args_result && fun_name1 == fun_name2)
    | .FunDef _ _ _ _ _, .FunDef _ _ _ _ _ => none
    | .TransUnit _ _, .TransUnit _ _ => none
    | _, _ => some false

/-- The `ast.delete_node(node_id); if node_id == ast.max_id { ast.max_id =
*ast.arena.keys().max().unwrap(); }` sequence repeated in every arm of
`delete_onwards`. -/
def deleteAndReseat (node_id : ID) (ast : Tree) : Option Tree := do
  let ast ← ast.deleteNode node_id
  if node_id = ast.max_id then
    match maxKey ast.arena with
    | none => none
    | some m => some { ast with max_id := m }
  else some ast

/-- The `for arg_id in arg_ids { delete_onwards(...) }` loops of
`delete_onwards`, threading the tree and accumulating deleted relations; the
recursive deletion is passed in as `delOn` (`delete_onwards` at the current
fuel). -/
def deleteOnwardsList (delOn : ID → Tree → Option (Finset AstRelation × Tree)) :
    List ID → Tree → Option (Finset AstRelation × Tree)
  | [], ast => some (∅, ast)
  | i :: rest, ast => do
    let (s1, ast) ← delOn i ast
    let (s2, ast) ← deleteOnwardsList delOn rest ast
    some (s1 ∪ s2, ast)

/-- `delete_onwards` from `ast.rs`. The `FunCall` and `TransUnit` arms run the
child deletions on a clone (collecting their relations into the delete set)
but return the tree that only had the node itself removed, exactly as the
source does (`return (delete_set, ast)`). -/
def delete_onwards (fuel : Nat) (node_id : ID) (ast : Tree) :
    Option (Finset AstRelation × Tree) :=
  match fuel with
  | 0 => none
  | fuel + 1 => do
    let r ← ast.getRelation node_id
    match r with
    | .Char _ => do
      let ast ← deleteAndReseat node_id ast
      some ({r}, ast)
    | .Float _ => do
      let ast ← deleteAndReseat node_id ast
      some ({r}, ast)
    | .Int _ => do
      let ast ← deleteAndReseat node_id ast
      some ({r}, ast)
    | .Void _ => do
      let ast ← deleteAndReseat node_id ast
      some ({r}, ast)
    | .Arg _ _ type_id => do
      let ast ← deleteAndReseat node_id ast
      let (child_set, ast) ← delete_onwards fuel type_id ast
      some (insert r child_set, ast)
    | .Var _ _ => do
      let ast ← deleteAndReseat node_id ast
      some ({r}, ast)
    | .BinaryOp _ arg1_id arg2_id => do
      let ast ← deleteAndReseat node_id ast
      let (s1, ast) ← delete_onwards fuel arg1_id ast
      let (s2, ast) ← delete_onwards fuel arg2_id ast
      some (insert r (s1 ∪ s2), ast)
    | .EndItem _ stmt_id => do
      let ast ← deleteAndReseat node_id ast
      let (s1, ast) ← delete_onwards fuel stmt_id ast
      some (insert r s1, ast)
    | .Item _ stmt_id next_stmt_id => do
      let ast ← deleteAndReseat node_id ast
      let (s1, ast) ← delete_onwards fuel stmt_id ast
      let (s2, ast) ← delete_onwards fuel next_stmt_id ast
      some (insert r (s1 ∪ s2), ast)
    | .Compound _ start_id => do
      let ast ← deleteAndReseat node_id ast
      let (s1, ast) ← delete_onwards fuel start_id ast
      some (insert r s1, ast)
    | .While _ cond_id body_id => do
      let ast ← deleteAndReseat node_id ast
      let (s1, ast) ← delete_onwards fuel cond_id ast
      let (s2, ast) ← delete_onwards fuel body_id ast
      some (insert r (s1 ∪ s2), ast)
    | .IfElse _ cond_id then_id else_id => do
      let ast ← deleteAndReseat node_id ast
      let (s1, ast) ← delete_onwards fuel cond_id ast
      let (s2, ast) ← delete_onwards fuel then_id ast
      let (s3, ast) ← delete_onwards fuel else_id ast
      some (insert r (s1 ∪ s2 ∪ s3), ast)
    | .If _ cond_id then_id => do
      let ast ← deleteAndReseat node_id ast
      let (s1, ast) ← delete_onwards fuel cond_id ast
      let (s2, ast) ← delete_onwards fuel then_id ast
      some (insert r (s1 ∪ s2), ast)
    | .Return _ expr_id => do
      let ast ← deleteAndReseat node_id ast
      let (s1, ast) ← delete_onwards fuel expr_id ast
      some (insert r s1, ast)
    | .Assign _ _ type_id expr_id => do
      let ast ← deleteAndReseat node_id ast
      let (s1, ast) ← delete_onwards fuel type_id ast
      let (s2, ast) ← delete_onwards fuel expr_id ast
      some (insert r (s1 ∪ s2), ast)
    | .FunCall _ _ arg_ids => do
      let ast ← deleteAndReseat node_id ast
      let (child_set, _) ← deleteOnwardsList (delete_onwards fuel) arg_ids ast
      some (insert r child_set, ast)
    | .FunDef _ _ return_type_id arg_ids body_id => do
      let ast ← deleteAndReseat node_id ast
      let (s1, ast) ← delete_onwards fuel return_type_id ast
      let (s2, ast) ← deleteOnwardsList (delete_onwards fuel) arg_ids ast
      let (s3, ast) ← delete_onwards fuel body_id ast
      some (insert r (s1 ∪ s2 ∪ s3), ast)
    | .TransUnit _ body_ids => do
      let ast ← deleteAndReseat node_id ast
      let (child_set, _) ← deleteOnwardsList (delete_onwards fuel) body_ids ast
      some (insert r child_set, ast)

/-- The `for`-loops over child-id vectors in the `FunCall`/`FunDef`/`TransUnit`
arms of `insert_onwards`, collecting the freshly allocated child ids in order;
the recursive insertion is passed in as `insOn` (`insert_onwards` at the
current fuel, applied to the new tree). -/
def insertOnwardsList (insOn : ID → Tree → Option (Finset AstRelation × Tree × ID)) :
    List ID → Tree → Option (Finset AstRelation × Tree × List ID)
  | [], ast => some (∅, ast, [])
  | i :: rest, ast => do
    let (s1, ast, child_id) ← insOn i ast
    let (s2, ast, rest_ids) ← insertOnwardsList insOn rest ast
    some (s1 ∪ s2, ast, child_id :: rest_ids)

/-- `insert_onwards` from `ast.rs`: copies the subtree rooted at `node_id` of
`new_ast` into `ast`, allocating fresh ids. The `FunCall` and `TransUnit` arms
compute `new_id` from the `max_id` of the tree as it was before the child
recursion (`ast.max_id + 1` on the original argument), and the `While` arm
materializes an `If` relation — both faithful to the source. -/
def insert_onwards (fuel : Nat) (node_id : ID) (ast new_ast : Tree) :
    Option (Finset AstRelation × Tree × ID) :=
  match fuel with
  | 0 => none
  | fuel + 1 => do
    let r ← new_ast.getRelation node_id
    match r with
    | .Char _ => do
      let new_id := ast.max_id + 1
      let new_relation ← replace_id_in_relation r new_id
      some ({new_relation}, ast.addNode new_id new_relation, new_id)
    | .Float _ => do
      let new_id := ast.max_id + 1
      let new_relation ← replace_id_in_relation r new_id
      some ({new_relation}, ast.addNode new_id new_relation, new_id)
    | .Int _ => do
      let new_id := ast.max_id + 1
      let new_relation ← replace_id_in_relation r new_id
      some ({new_relation}, ast.addNode new_id new_relation, new_id)
    | .Void _ => do
      let new_id := ast.max_id + 1
      let new_relation ← replace_id_in_relation r new_id
      some ({new_relation}, ast.addNode new_id new_relation, new_id)
    | .Arg _ var_name type_id => do
      let (s1, ast, type_child_id) ← insert_onwards fuel type_id ast new_ast
      let new_id := ast.max_id + 1
      let new_relation := AstRelation.Arg new_id var_name type_child_id
      let ast := (ast.addNode new_id new_relation).linkChild new_id type_child_id
      some (insert new_relation s1, ast, new_id)
    | .Var _ var_name => do
      let new_id := ast.max_id + 1
      let new_relation := AstRelation.Var new_id var_name
      some ({new_relation}, ast.addNode new_id new_relation, new_id)
    | .BinaryOp _ arg1_id arg2_id => do
      let (s1, ast, arg1_child_id) ← insert_onwards fuel arg1_id ast new_ast
      let (s2, ast, arg2_child_id) ← insert_onwards fuel arg2_id ast new_ast
      let new_id := ast.max_id + 1
      let new_relation := AstRelation.BinaryOp new_id arg1_child_id arg2_child_id
      let ast := ((ast.addNode new_id new_relation).linkChild new_id arg1_child_id).linkChild
        new_id arg2_child_id
      some (insert new_relation (s1 ∪ s2), ast, new_id)
    | .EndItem _ stmt_id => do
      let (s1, ast, stmt_child_id) ← insert_onwards fuel stmt_id ast new_ast
      let new_id := ast.max_id + 1
      let new_relation := AstRelation.EndItem new_id stmt_child_id
      let ast := (ast.addNode new_id new_relation).linkChild new_id stmt_child_id
      some (insert new_relation s1, ast, new_id)
    | .Item _ stmt_id next_stmt_id => do
      let (s1, ast, stmt_child_id) ← insert_onwards fuel stmt_id ast new_ast
      let (s2, ast, next_stmt_child_id) ← insert_onwards fuel next_stmt_id ast new_ast
      let new_id := ast.max_id + 1
      let new_relation := AstRelation.Item new_id stmt_child_id next_stmt_child_id
      let ast := ((ast.addNode new_id new_relation).linkChild new_id stmt_child_id).linkChild
        new_id next_stmt_child_id
      some (insert new_relation (s1 ∪ s2), ast, new_id)
    | .Compound _ start_id => do
      let (s1, ast, start_child_id) ← insert_onwards fuel start_id ast new_ast
      let new_id := ast.max_id + 1
      let new_relation := AstRelation.Compound new_id start_child_id
      let ast := (ast.addNode new_id new_relation).linkChild new_id start_child_id
      some (insert new_relation s1, ast, new_id)
    | .While _ cond_id body_id => do
      let (s1, ast, cond_child_id) ← insert_onwards fuel cond_id ast new_ast
      let (s2, ast, body_child_id) ← insert_onwards fuel body_id ast new_ast
      let new_id := ast.max_id + 1
      let new_relation := AstRelation.If new_id cond_child_id body_child_id
      let ast := ((ast.addNode new_id new_relation).linkChild new_id cond_child_id).linkChild
        new_id body_child_id
      some (insert new_relation (s1 ∪ s2), ast, new_id)
    | .IfElse _ cond_id then_id else_id => do
      let (s1, ast, cond_child_id) ← insert_onwards fuel cond_id ast new_ast
      let (s2, ast, then_child_id) ← insert_onwards fuel then_id ast new_ast
      let (s3, ast, else_child_id) ← insert_onwards fuel else_id ast new_ast
      let new_id := ast.max_id + 1
      let new_relation := AstRelation.IfElse new_id cond_child_id then_child_id else_child_id
      let ast := (((ast.addNode new_id new_relation).linkChild new_id cond_child_id).linkChild
        new_id then_child_id).linkChild new_id else_child_id
      some (insert new_relation (s1 ∪ s2 ∪ s3), ast, new_id)
    | .If _ cond_id then_id => do
      let (s1, ast, cond_child_id) ← insert_onwards fuel cond_id ast new_ast
      let (s2, ast, then_child_id) ← insert_onwards fuel then_id ast new_ast
      let new_id := ast.max_id + 1
      let new_relation := AstRelation.If new_id cond_child_id then_child_id
      let ast := ((ast.addNode new_id new_relation).linkChild new_id cond_child_id).linkChild
        new_id then_child_id
      some (insert new_relation (s1 ∪ s2), ast, new_id)
    | .Return _ expr_id => do
      let (s1, ast, expr_child_id) ← insert_onwards fuel expr_id ast new_ast
      let new_id := ast.max_id + 1
      let new_relation := AstRelation.Return new_id expr_child_id
      let ast := (ast.addNode new_id new_relation).linkChild new_id expr_child_id
      some (insert new_relation s1, ast, new_id)
    | .Assign _ var_name type_id expr_id => do
      let (s1, ast, type_child_id) ← insert_onwards fuel type_id ast new_ast
      let (s2, ast, expr_child_id) ← insert_onwards fuel expr_id ast new_ast
      let new_id := ast.max_id + 1
      let new_relation := AstRelation.Assign new_id var_name type_child_id expr_child_id
      let ast := ((ast.addNode new_id new_relation).linkChild new_id type_child_id).linkChild
        new_id expr_child_id
      some (insert new_relation (s1 ∪ s2), ast, new_id)
    | .FunCall _ fun_name arg_ids => do
      let (s1, updated_ast, new_child_ids) ←
        insertOnwardsList (fun i a => insert_onwards fuel i a new_ast) arg_ids ast
      let new_id := ast.max_id + 1
      let new_relation := AstRelation.FunCall new_id fun_name new_child_ids
      let updated_ast := (updated_ast.addNode new_id new_relation).replaceChildren
        new_id new_child_ids
      some (insert new_relation s1, updated_ast, new_id)
    | .FunDef _ fun_name return_type_id arg_ids body_id => do
      let (s1, ast, return_child_id) ← insert_onwards fuel return_type_id ast new_ast
      let (s2, ast, new_child_ids) ←
        insertOnwardsList (fun i a => insert_onwards fuel i a new_ast) arg_ids ast
      let (s3, ast, body_child_id) ← insert_onwards fuel body_id ast new_ast
      let new_id := ast.max_id + 1
      let new_relation := AstRelation.FunDef new_id fun_name return_child_id new_child_ids
        body_child_id
      let ast := (((ast.addNode new_id new_relation).replaceChildren new_id
        new_child_ids).linkChild new_id return_child_id).linkChild new_id body_child_id
      some (insert new_relation (s1 ∪ s2 ∪ s3), ast, new_id)
    | .TransUnit _ body_ids => do
      let (s1, updated_ast, new_child_ids) ←
        insertOnwardsList (fun i a => insert_onwards fuel i a new_ast) body_ids ast
      let new_id := ast.max_id + 1
      let new_relation := AstRelation.TransUnit new_id new_child_ids
      let updated_ast := (updated_ast.addNode new_id new_relation).replaceChildren
        new_id new_child_ids
      some (insert new_relation s1, updated_ast, new_id)

/-- `compare_items` from `ast.rs`: reconciles two `Item`/`EndItem` chains.
Returned tuple: (insert set, delete set, updated tree, id of the cell that now
heads the reconciled chain). In the `Item`/`Item` mismatch arm the fresh cell
id is read from `max_id` before the statement subtree is inserted, while in
the `EndItem`/`Item` mismatch arm it is read afterwards — both as in the
source. -/
def compare_items (fuel : Nat) (item_id1 item_id2 : ID) (t1 t2 : Tree) :
    Option (Finset AstRelation × Finset AstRelation × Tree × ID) :=
  match fuel with
  | 0 => none
  | fuel + 1 => do
    let item1 ← t1.getRelation item_id1
    let item2 ← t2.getRelation item_id2
    match item1, item2 with
    | .Item id1 stmt_id1 next_stmt_id1, .Item _ stmt_id2 next_stmt_id2 => do
      let s1 ← t1.getRelation stmt_id1
      let s2 ← t2.getRelation stmt_id2
      let b ← relations_match fuel s1 s2 t1 t2
      if b then do
        let (insertions, deletions, updated_tree, next_id) ←
          compare_items fuel next_stmt_id1 next_stmt_id2 t1 t2
        if next_stmt_id1 ≠ next_id then
          let replacement := AstRelation.Item id1 stmt_id1 next_id
          let updated_tree := (updated_tree.updateRelation id1 replacement).replaceChildren
            id1 [stmt_id1, next_id]
          some (insert replacement insertions, insert item1 deletions, updated_tree, id1)
        else
          some (insertions, deletions, updated_tree, id1)
      else do
        let (insertions, deletions, updated_tree, next_id) ←
          compare_items fuel id1 next_stmt_id2 t1 t2
        let new_id := updated_tree.max_id + 1
        let (ins2, updated_tree, stmt_id) ← insert_onwards fuel stmt_id2 updated_tree t2
        let new_item := AstRelation.Item new_id stmt_id next_id
        let updated_tree := ((updated_tree.addNode new_id new_item).linkChild
          new_id stmt_id).linkChild new_id next_id
        some (insert new_item (insertions ∪ ins2), deletions, updated_tree, new_id)
    | .EndItem id1 stmt_id1, .Item _ stmt_id2 next_stmt_id2 => do
      let s1 ← t1.getRelation stmt_id1
      let s2 ← t2.getRelation stmt_id2
      let b ← relations_match fuel s1 s2 t1 t2
      if b then do
        let (insertions, updated_tree, next_item) ←
          insert_onwards fuel next_stmt_id2 t1 t2
        let replacement := AstRelation.Item id1 stmt_id1 next_item
        let updated_tree := (updated_tree.updateRelation id1 replacement).replaceChildren
          id1 [stmt_id1, next_item]
        some (insert replacement insertions, {item1}, updated_tree, id1)
      else do
        let (insertions, deletions, updated_tree, next_id) ←
          compare_items fuel id1 next_stmt_id2 t1 t2
        let (ins2, new_updated_tree, stmt_id) ← insert_onwards fuel stmt_id2 updated_tree t2
        let new_id := new_updated_tree.max_id + 1
        let new_item := AstRelation.Item new_id stmt_id next_id
        let new_updated_tree := ((new_updated_tree.addNode new_id new_item).linkChild
          new_id stmt_id).linkChild new_id next_id
        some (insert new_item (insertions ∪ ins2), deletions, new_updated_tree, new_id)
    | .Item id1 stmt_id1 next_stmt_id1, .EndItem _ stmt_id2 => do
      let s1 ← t1.getRelation stmt_id1
      let s2 ← t2.getRelation stmt_id2
      let b ← relations_match fuel s1 s2 t1 t2
      if b then do
        let (deletions, updated_tree) ← delete_onwards fuel next_stmt_id1 t1
        let replacement := AstRelation.EndItem id1 stmt_id1
        let updated_tree := (updated_tree.updateRelation id1 replacement).replaceChildren
          id1 [stmt_id1]
        some ({replacement}, insert item1 deletions, updated_tree, id1)
      else do
        let (deletions, updated_tree) ← delete_onwards fuel next_stmt_id1 t1
        let (insertions, updated_tree, stmt_id) ← insert_onwards fuel stmt_id2 updated_tree t2
        let replacement := AstRelation.EndItem id1 stmt_id
        let updated_tree := (updated_tree.updateRelation id1 replacement).replaceChildren
          id1 [stmt_id]
        some (insert replacement insertions, insert item1 deletions, updated_tree, id1)
    | .EndItem id1 stmt_id1, .EndItem _ stmt_id2 => do
      let s1 ← t1.getRelation stmt_id1
      let s2 ← t2.getRelation stmt_id2
      let b ← relations_match fuel s1 s2 t1 t2
      if b then
        some (∅, ∅, t1, id1)
      else do
        let (insertions, updated_tree, stmt_id) ← insert_onwards fuel stmt_id2 t1 t2
        let replacement := AstRelation.EndItem id1 stmt_id
        let updated_tree := (updated_tree.updateRelation id1 replacement).replaceChildren
          id1 [stmt_id]
        some (insert replacement insertions, {item1}, updated_tree, id1)
    | _, _ => none

/-- `HashMap::insert` for the `fun_to_be_deleted` map of
`get_diff_relation_set` (replace in place, append when absent; iteration
order is modelled as insertion order). -/
def insertMark (marks : List (ID × Bool)) (i : ID) (v : Bool) : List (ID × Bool) :=
  match marks with
  | [] => [(i, v)]
  | (k, w) :: rest => if k = i then (k, v) :: rest else (k, w) :: insertMark rest i v

/-- The positional argument loop of `get_diff_relation_set`: the source
iterates `prev_arg_ids` by index into `new_arg_ids`, reconciling positions
present in both (type replacement, then name replacement — the latter without
recording a deletion, as in the source) and deleting excess previous
arguments. Lock-step walk of the two lists; positions only in the new list
are handled afterwards by `insertExtraArgs`. Returns (insert set, delete set,
tree, `remaining_args`, `args_have_changed`). -/
def diffArgPairs (fuel : Nat) (prev_ast new_ast : Tree) (prevArgs newArgs : List ID)
    (ins del : Finset AstRelation) (tree : Tree) (remaining : List ID) (changed : Bool) :
    Option (Finset AstRelation × Finset AstRelation × Tree × List ID × Bool) :=
  match prevArgs, newArgs with
  | [], _ => some (ins, del, tree, remaining, changed)
  | p :: ps, [] => do
    let (dels, tree) ← delete_onwards fuel p tree
    diffArgPairs fuel prev_ast new_ast ps [] ins (del ∪ dels) tree remaining true
  | p :: ps, n :: ns => do
    let prev_arg ← prev_ast.getRelation p
    let new_arg ← new_ast.getRelation n
    match prev_arg, new_arg with
    | .Arg id var_name1 type_id1, .Arg _ var_name2 type_id2 => do
      let prev_type ← prev_ast.getRelation type_id1
      let new_type ← new_ast.getRelation type_id2
      let b ← relations_match fuel prev_type new_type prev_ast new_ast
      let (ins, del, tree) ←
        if b then some (ins, del, tree)
        else do
          let replacement ← replace_id_in_relation new_type type_id1
          some (insert replacement ins, insert prev_type del,
            tree.updateRelation type_id1 replacement)
      let (ins, tree) :=
        if var_name1 ≠ var_name2 then
          let replacement := AstRelation.Arg id var_name2 type_id1
          (insert replacement ins,
            (tree.updateRelation id replacement).replaceChildren id [type_id1])
        else (ins, tree)
      diffArgPairs fuel prev_ast new_ast ps ns ins del tree (remaining ++ [p]) changed
    | _, _ => none

/-- The second argument loop of `get_diff_relation_set`, inserting the new
arguments at positions past the end of the previous argument list (the caller
passes `newArgs.drop prevArgs.length`). -/
def insertExtraArgs (fuel : Nat) (new_ast : Tree) (rest : List ID)
    (ins : Finset AstRelation) (tree : Tree) (remaining : List ID) (changed : Bool) :
    Option (Finset AstRelation × Tree × List ID × Bool) :=
  match rest with
  | [] => some (ins, tree, remaining, changed)
  | n :: ns => do
    let (inss, tree, updated_arg_id) ← insert_onwards fuel n tree new_ast
    insertExtraArgs fuel new_ast ns (ins ∪ inss) tree (remaining ++ [updated_arg_id]) true

/-- The body of the name-match case of `get_diff_relation_set`: return-type
reconciliation, positional argument reconciliation, `FunDef` replacement when
the argument identity list changed, and body comparison through
`compare_items`. -/
def processMatchedFun (fuel : Nat) (prev_ast new_ast : Tree)
    (prev_id : ID) (prev_fun_name : String) (prev_return_type_id : ID)
    (prev_arg_ids : List ID) (prev_body_id : ID)
    (new_return_type_id : ID) (new_arg_ids : List ID) (new_body_id : ID)
    (ins del : Finset AstRelation) (tree : Tree) :
    Option (Finset AstRelation × Finset AstRelation × Tree) := do
  let prev_return_type ← prev_ast.getRelation prev_return_type_id
  let new_return_type ← new_ast.getRelation new_return_type_id
  let b ← relations_match fuel prev_return_type new_return_type prev_ast new_ast
  let (ins, del, tree) ←
    if b then some (ins, del, tree)
    else do
      let replacement ← replace_id_in_relation new_return_type prev_return_type_id
      some (insert replacement ins, insert prev_return_type del,
        tree.updateRelation prev_return_type_id replacement)
  let (ins, del, tree, remaining_args, changed) ←
    diffArgPairs fuel prev_ast new_ast prev_arg_ids new_arg_ids ins del tree [] false
  let (ins, tree, remaining_args, changed) ←
    insertExtraArgs fuel new_ast (new_arg_ids.drop prev_arg_ids.length)
      ins tree remaining_args changed
  let (ins, del, tree) ←
    if changed then do
      let prev_fun_rel ← prev_ast.getRelation prev_id
      let replacement := AstRelation.FunDef prev_id prev_fun_name prev_return_type_id
        remaining_args prev_body_id
      let tree := ((((tree.updateRelation prev_id replacement).replaceChildren
        prev_id remaining_args).linkChild prev_id prev_return_type_id).linkChild
        prev_id prev_body_id)
      some (insert replacement ins, insert prev_fun_rel del, tree)
    else some (ins, del, tree)
  let prev_body ← prev_ast.getRelation prev_body_id
  let new_body ← new_ast.getRelation new_body_id
  match prev_body, new_body with
  | .Compound _ start_id1, .Compound _ start_id2 => do
    let (insertions, deletions, tree, _) ←
      compare_items fuel start_id1 start_id2 tree new_ast
    some (ins ∪ insertions, del ∪ deletions, tree)
  | _, _ => none

/-- The `'new_search` loop of `get_diff_relation_set`: scan the new root's
children for a `FunDef` with the previous function's name; any non-`FunDef`
encountered before a match panics. Returns the updated state, the
`matching_new_funs` list and whether a match was found (and processed). -/
def searchNewFuns (fuel : Nat) (prev_ast new_ast : Tree)
    (prev_id : ID) (prev_fun_name : String) (prev_return_type_id : ID)
    (prev_arg_ids : List ID) (prev_body_id : ID) (newChildren : List ID)
    (ins del : Finset AstRelation) (tree : Tree) (matched : List ID) :
    Option (Finset AstRelation × Finset AstRelation × Tree × List ID × Bool) :=
  match newChildren with
  | [] => some (ins, del, tree, matched, false)
  | nf :: rest => do
    let rel ← new_ast.getRelation nf
    match rel with
    | .FunDef new_id new_fun_name new_return_type_id new_arg_ids new_body_id =>
      if prev_fun_name = new_fun_name then do
        let matched := matched ++ [new_id]
        let (ins, del, tree) ← processMatchedFun fuel prev_ast new_ast
          prev_id prev_fun_name prev_return_type_id prev_arg_ids prev_body_id
          new_return_type_id new_arg_ids new_body_id ins del tree
        some (ins, del, tree, matched, true)
      else
        searchNewFuns fuel prev_ast new_ast prev_id prev_fun_name prev_return_type_id
          prev_arg_ids prev_body_id rest ins del tree matched
    | _ => none

/-- The outer loop of `get_diff_relation_set` over the previous root's
children: each must be a `FunDef`; it is first marked to-delete, then
un-marked when a name match is found and reconciled. -/
def prevFunsLoop (fuel : Nat) (prev_ast new_ast : Tree) (newChildren : List ID)
    (prevChildren : List ID) (ins del : Finset AstRelation) (tree : Tree)
    (marks : List (ID × Bool)) (matched : List ID) :
    Option (Finset AstRelation × Finset AstRelation × Tree × List (ID × Bool) × List ID) :=
  match prevChildren with
  | [] => some (ins, del, tree, marks, matched)
  | pf :: rest => do
    let rel ← prev_ast.getRelation pf
    match rel with
    | .FunDef prev_id prev_fun_name prev_return_type_id prev_arg_ids prev_body_id => do
      let marks := insertMark marks prev_id true
      let (ins, del, tree, matched, found) ← searchNewFuns fuel prev_ast new_ast
        prev_id prev_fun_name prev_return_type_id prev_arg_ids prev_body_id
        newChildren ins del tree matched
      let marks := if found then insertMark marks prev_id false else marks
      prevFunsLoop fuel prev_ast new_ast newChildren rest ins del tree marks matched
    | _ => none

/-- The loop over `fun_to_be_deleted`: delete the subtrees of still-marked
functions, collect the ids of surviving functions into `remaining_funs`. -/
def deleteMarkedLoop (fuel : Nat) (marks : List (ID × Bool))
    (del : Finset AstRelation) (tree : Tree) (remaining : List ID) :
    Option (Finset AstRelation × Tree × List ID) :=
  match marks with
  | [] => some (del, tree, remaining)
  | (fid, indicator) :: rest =>
    if indicator then do
      let (dels, tree) ← delete_onwards fuel fid tree
      deleteMarkedLoop fuel rest (del ∪ dels) tree remaining
    else
      deleteMarkedLoop fuel rest del tree (remaining ++ [fid])

/-- The loop inserting new functions that matched no previous function. -/
def insertNewFunsLoop (fuel : Nat) (new_ast : Tree) (newChildren : List ID)
    (matched : List ID) (ins : Finset AstRelation) (tree : Tree) (remaining : List ID) :
    Option (Finset AstRelation × Tree × List ID) :=
  match newChildren with
  | [] => some (ins, tree, remaining)
  | nf :: rest =>
    if ¬ matched.contains nf then do
      let (inss, tree, inserted_fun_id) ← insert_onwards fuel nf tree new_ast
      insertNewFunsLoop fuel new_ast rest matched (ins ∪ inss) tree
        (remaining ++ [inserted_fun_id])
    else
      insertNewFunsLoop fuel new_ast rest matched ins tree remaining

/-- `get_diff_relation_set` from `ast.rs`: structural diff of two trees,
producing the insert set, the delete set and the updated maintained tree. -/
def get_diff_relation_set (fuel : Nat) (prev_ast new_ast : Tree) :
    Option (Finset AstRelation × Finset AstRelation × Tree) := do
  let updated_tree := prev_ast
  let prev_root ← prev_ast.getNode prev_ast.getRoot
  let new_root ← new_ast.getNode new_ast.getRoot
  let (ins, del, tree, marks, matched) ← prevFunsLoop fuel prev_ast new_ast
    new_root.children prev_root.children ∅ ∅ updated_tree [] []
  let (del, tree, remaining_funs) ← deleteMarkedLoop fuel marks del tree []
  let (ins, tree, remaining_funs) ← insertNewFunsLoop fuel new_ast new_root.children
    matched ins tree remaining_funs
  let root_rel ← prev_ast.getRelation prev_ast.getRoot
  let prev_funs := match root_rel with
    | .TransUnit _ body_ids => body_ids
    | _ => []
  if ¬ (remaining_funs.all (fun i => prev_funs.contains i) ∧
        prev_funs.all (fun i => remaining_funs.contains i)) then do
    let root_rel2 ← prev_ast.getRelation prev_ast.getRoot
    let final_root := AstRelation.TransUnit prev_ast.getRoot remaining_funs
    let tree := (tree.updateRelation prev_ast.getRoot final_root).replaceChildren
      prev_ast.getRoot remaining_funs
    some (insert final_root ins, insert root_rel2 del, tree)
  else
    some (ins, del, tree)

/-! Embedding of `standard_type_checker.rs`. -/

/-- `enum Type` from `standard_type_checker.rs`. -/
inductive Ty where
  | voidT | intT | floatT | charT | okT | errorT
deriving DecidableEq, Repr

/-- `struct FunType`. -/
structure FunTy where
  return_type : Ty
  arg_types : List Ty
deriving DecidableEq, Repr

/-- `HashMap<String, _>` contexts, as insertion-ordered association lists with
replace-on-insert. -/
def insertSC {α : Type} (l : List (String × α)) (k : String) (v : α) : List (String × α) :=
  match l with
  | [] => [(k, v)]
  | (k', w) :: rest => if k' = k then (k', v) :: rest else (k', w) :: insertSC rest k v

/-- `HashMap::get` on a string-keyed context. -/
def lookupSC {α : Type} (l : List (String × α)) (k : String) : Option α :=
  match l with
  | [] => none
  | (k', w) :: rest => if k' = k then some w else lookupSC rest k

abbrev VarCtx := List (String × Ty)
abbrev FunCtx := List (String × FunTy)

/-- `type_check_literal` (panics on non-leaf relations). -/
def type_check_literal (node : AstRelation) : Option Ty :=
  match node with
  | .Void _ => some .voidT
  | .Int _ => some .intT
  | .Float _ => some .floatT
  | .Char _ => some .charT
  | _ => none

/-- The argument loop of the `FunCall` case of `type_check_statement`: each
call argument is checked against `fun_types[counter]` — indexing past the end
of the formal list panics, surplus formals are never checked, and each
argument is checked in the caller's original variable context. The statement
checker is passed in as `tc` (`type_check_statement` at the current fuel). -/
def typeCheckCallArgs (tc : AstRelation → VarCtx → Option (Ty × VarCtx)) (ast : Tree)
    (var_context : VarCtx) (ret : Ty) : List ID → List Ty → Option (Ty × VarCtx)
  | [], _ => some (ret, var_context)
  | a :: rest, funTys => do
    let arg_rel ← ast.getRelation a
    let (arg_type, var_context') ← tc arg_rel var_context
    match funTys with
    | [] => none
    | ft :: restTys =>
      if ft ≠ arg_type then some (.errorT, var_context')
      else typeCheckCallArgs tc ast var_context ret rest restTys

/-- `type_check_statement` from `standard_type_checker.rs`. Panics (`none`)
are: missing arena ids, a `Var` not in the variable context, a `FunCall` name
not in the function context, a `Return` outside a known function, and — via
the catch-all arm — every statement kind without a case, which includes
`If`, `IfElse`, `While`, `Compound`, `Item` and `EndItem`. -/
def type_check_statement (fuel : Nat) (node : AstRelation) (ast : Tree)
    (var_context : VarCtx) (fun_context : FunCtx) (current_fun : String) :
    Option (Ty × VarCtx) :=
  match fuel with
  | 0 => none
  | fuel + 1 =>
    match node with
    | .Assign _ var_name type_id expr_id => do
      let type_rel ← ast.getRelation type_id
      let assign_type ← type_check_literal type_rel
      let expr_rel ← ast.getRelation expr_id
      let (expr_type, new_var_context) ←
        type_check_statement fuel expr_rel ast var_context fun_context current_fun
      if assign_type = expr_type then
        some (.okT, insertSC new_var_context var_name assign_type)
      else
        some (.errorT, var_context)
    | .Return _ expr_id => do
      let expr_rel ← ast.getRelation expr_id
      let (expr_type, new_var_context) ←
        type_check_statement fuel expr_rel ast var_context fun_context current_fun
      let fun_type ← lookupSC fun_context current_fun
      if fun_type.return_type = expr_type then
        some (.okT, new_var_context)
      else
        some (.errorT, var_context)
    | .FunCall _ fun_name arg_ids => do
      let fun_type ← lookupSC fun_context fun_name
      typeCheckCallArgs
        (fun r ctx => type_check_statement fuel r ast ctx fun_context current_fun)
        ast var_context fun_type.return_type arg_ids fun_type.arg_types
    | .BinaryOp _ arg1_id arg2_id => do
      let arg1_rel ← ast.getRelation arg1_id
      let (arg1_type, new_var_context) ←
        type_check_statement fuel arg1_rel ast var_context fun_context current_fun
      let arg2_rel ← ast.getRelation arg2_id
      let (arg2_type, new_var_context2) ←
        type_check_statement fuel arg2_rel ast new_var_context fun_context current_fun
      if arg1_type = arg2_type then
        match arg1_type with
        | .intT => some (.intT, new_var_context2)
        | .floatT => some (.floatT, new_var_context2)
        | _ => some (.errorT, var_context)
      else
        some (.errorT, var_context)
    | .Var _ var_name => do
      let var_type ← lookupSC var_context var_name
      some (var_type, var_context)
    | .Void _ => some (.voidT, var_context)
    | .Int _ => some (.intT, var_context)
    | .Float _ => some (.floatT, var_context)
    | .Char _ => some (.charT, var_context)
    | _ => none

/-- `type_check_item`: walks an `Item`/`EndItem` chain; a statement judged
anything other than `Ok`/`Error` in an `Item` cell panics. -/
def type_check_item (fuel : Nat) (node : AstRelation) (ast : Tree)
    (var_context : VarCtx) (fun_context : FunCtx) (current_fun : String) : Option Ty :=
  match fuel with
  | 0 => none
  | fuel + 1 =>
    match node with
    | .Item _ stmt_id next_stmt_id => do
      let stmt_rel ← ast.getRelation stmt_id
      let (ty, new_var_context) ←
        type_check_statement fuel stmt_rel ast var_context fun_context current_fun
      match ty with
      | .okT => do
        let next_rel ← ast.getRelation next_stmt_id
        type_check_item fuel next_rel ast new_var_context fun_context current_fun
      | .errorT => some .errorT
      | _ => none
    | .EndItem _ stmt_id => do
      let stmt_rel ← ast.getRelation stmt_id
      let (ty, _) ←
        type_check_statement fuel stmt_rel ast var_context fun_context current_fun
      some ty
    | _ => none

/-- `type_check_compound`. -/
def type_check_compound (fuel : Nat) (node : AstRelation) (ast : Tree)
    (var_context : VarCtx) (fun_context : FunCtx) (current_fun : String) : Option Ty :=
  match node with
  | .Compound _ start_id => do
    let start_rel ← ast.getRelation start_id
    type_check_item fuel start_rel ast var_context fun_context current_fun
  | _ => none

/-- `bind_arguments`. -/
def bind_arguments (arg_ids : List ID) (var_context : VarCtx) (ast : Tree) :
    Option (VarCtx × List Ty) :=
  match arg_ids with
  | [] => some (var_context, [])
  | a :: rest => do
    let arg_rel ← ast.getRelation a
    match arg_rel with
    | .Arg _ var_name type_id => do
      let type_rel ← ast.getRelation type_id
      let arg_type ← type_check_literal type_rel
      let (ctx, tys) ← bind_arguments rest (insertSC var_context var_name arg_type) ast
      some (ctx, arg_type :: tys)
    | _ => none

/-- `type_check_fun_def`: note that the function context passed down contains
only the function being checked (plus whatever the caller supplied — the
top-level walk supplies an empty map), so a body calling any other function
panics in the `FunCall` case. -/
def type_check_fun_def (fuel : Nat) (node : AstRelation) (ast : Tree)
    (var_context : VarCtx) (fun_context : FunCtx) : Option Ty :=
  match node with
  | .FunDef _ fun_name return_type_id arg_ids body_id => do
    let ret_rel ← ast.getRelation return_type_id
    let return_type ← type_check_literal ret_rel
    let (new_var_context, arg_types) ← bind_arguments arg_ids var_context ast
    let new_fun_context := insertSC fun_context fun_name ⟨return_type, arg_types⟩
    let body_rel ← ast.getRelation body_id
    type_check_compound fuel body_rel ast new_var_context new_fun_context fun_name
  | _ => none

/-- The body loop of `type_check_trans_unit`: every declaration must come back
`Ok` or `Error` (anything else panics); one `Error` flips the flag but the
loop continues. -/
def transUnitLoop (fuel : Nat) (body_ids : List ID) (ast : Tree)
    (var_context : VarCtx) (fun_context : FunCtx) (body_correct : Bool) : Option Bool :=
  match body_ids with
  | [] => some body_correct
  | b :: rest => do
    let rel ← ast.getRelation b
    let ty ← type_check_fun_def fuel rel ast var_context fun_context
    match ty with
    | .errorT => transUnitLoop fuel rest ast var_context fun_context false
    | .okT => transUnitLoop fuel rest ast var_context fun_context body_correct
    | _ => none

/-- `type_check_trans_unit`. -/
def type_check_trans_unit (fuel : Nat) (node : AstRelation) (ast : Tree)
    (var_context : VarCtx) (fun_context : FunCtx) : Option Ty :=
  match node with
  | .TransUnit _ body_ids => do
    let ok ← transUnitLoop fuel body_ids ast var_context fun_context true
    some (if ok then .okT else .errorT)
  | _ => none

/-- `type_check` from `standard_type_checker.rs`: the baseline checker's
entry point. -/
def type_check (fuel : Nat) (ast : Tree) : Option Bool := do
  let root_rel ← ast.getRelation ast.getRoot
  let ty ← type_check_trans_unit fuel root_rel ast [] []
  some (ty == Ty.okT)

/-! Embedding of `ddlog_interface.rs`. -/

/-- The generated DDlog record values (`type_checker_ddlog::typedefs`) that
`get_equiv_ddvalue` constructs, one tag per relation of the DDlog program. -/
inductive DDRecord where
  | TransUnit (id : Int) (body_ids : List Int)
  | FunDef (id : Int) (fun_name : String) (return_type_id : Int) (arg_ids : List Int)
      (body_id : Int)
  | FunCall (id : Int) (fun_name : String) (arg_ids : List Int)
  | Assign (id : Int) (var_name : String) (type_id : Int) (expr_id : Int)
  | Return (id : Int) (expr_id : Int)
  | Compound (id : Int) (start_id : Int)
  | Item (id : Int) (stmt_id : Int) (next_stmt_id : Int)
  | EndItem (id : Int) (stmt_id : Int)
  | BinaryOp (id : Int) (arg1_id : Int) (arg2_id : Int)
  | Var (id : Int) (var_name : String)
  | Arg (id : Int) (var_name : String) (type_id : Int)
  | Void (id : Int)
  | Int (id : Int)
  | Float (id : Int)
  | Char (id : Int)
deriving DecidableEq, Repr

/-- `get_equiv_ddvalue` from `ddlog_interface.rs`: the conversion of an AST
relation into the DDlog record submitted to the delta engine. The `i32`
round-trips are identities here; the source match has no arms for the newer
`If`/`IfElse`/`While` statement variants (`none`), and its `Float` arm builds
a `Void` record. -/
def get_equiv_ddvalue (ast_relation : AstRelation) : Option DDRecord :=
  match ast_relation with
  | .TransUnit id body_ids => some (.TransUnit id body_ids)
  | .FunDef id fun_name return_type_id arg_ids body_id =>
    some (.FunDef id fun_name return_type_id arg_ids body_id)
  | .FunCall id fun_name arg_ids => some (.FunCall id fun_name arg_ids)
  | .Assign id var_name type_id expr_id => some (.Assign id var_name type_id expr_id)
  | .Return id expr_id => some (.Return id expr_id)
  | .Compound id start_id => some (.Compound id start_id)
  | .Item id stmt_id next_stmt_id => some (.Item id stmt_id next_stmt_id)
  | .EndItem id stmt_id => some (.EndItem id stmt_id)
  | .BinaryOp id arg1_id arg2_id => some (.BinaryOp id arg1_id arg2_id)
  | .Var id var_name => some (.Var id var_name)
  | .Arg id var_name type_id => some (.Arg id var_name type_id)
  | .Void id => some (.Void id)
  | .Int id => some (.Int id)
  | .Float id => some (.Void id)
  | .Char id => some (.Char id)
  | .If _ _ _ => none
  | .IfElse _ _ _ _ => none
  | .While _ _ _ => none

/-- Conversion of a whole insert set into DDlog insert updates
(`insert_set.iter().map(|x| convert_relation(x, InsertUpdate))`); any
unconvertible relation panics the iteration. -/
def convertInserts (s : Finset AstRelation) : Option (Finset DDRecord) :=
  if h : ∀ r ∈ s, (get_equiv_ddvalue r).isSome then
    some (s.attach.image fun r => (get_equiv_ddvalue r.1).get (h r.1 r.2))
  else none

/-- `run_ddlog_type_checker` from `ddlog_interface.rs`, viewed as a transition
on the engine's fact store: a transaction is started, every relation of
`insert_set` is applied as an `Insert` update, and the transaction is
committed. `delete_set` is never read — `convert_relation`'s `DeleteUpdate`
arm is `panic!("Not implemented yet")` and no delete updates are ever
built — so the resulting store is the previous store plus the converted
inserts. -/
def run_ddlog_type_checker (store : Finset DDRecord)
    (insert_set delete_set : Finset AstRelation) : Option (Finset DDRecord) :=
  (convertInserts insert_set).map (fun upd => store ∪ upd)

/-! Well-formedness of trees, as finite shapes.

A tree id is well-formed when the arena unfolds from it into a finite pure
syntax tree (a `Shape`): every id-valued field resolves, the stored relation's
own id field agrees with its arena key, and no `FunDef`/`TransUnit` occurs
below the top level. This is §3 of the spec (invariants 1, 2 and 5 restricted
to what the differ traverses); the decoders are executable so that concrete
witnesses can be checked by evaluation. -/

/-- Pure shapes of the relation kinds that may occur inside a function
(everything except `FunDef` and `TransUnit`). -/
inductive Shape where
  | voidS | intS | floatS | charS
  | argS (var_name : String) (ty : Shape)
  | varS (var_name : String)
  | binopS (a1 a2 : Shape)
  | itemS (s next : Shape)
  | endItemS (s : Shape)
  | compoundS (s : Shape)
  | whileS (c b : Shape)
  | ifS (c t : Shape)
  | ifElseS (c t e : Shape)
  | returnS (e : Shape)
  | assignS (var_name : String) (ty e : Shape)
  | funCallS (fun_name : String) (args : List Shape)

mutual

/-- Number of relations in a shape (at least 1); used to bound fuel. -/
def Shape.size : Shape → Nat
  | .voidS | .intS | .floatS | .charS => 1
  | .argS _ ty => ty.size + 1
  | .varS _ => 1
  | .binopS a1 a2 => a1.size + a2.size + 1
  | .itemS s next => s.size + next.size + 1
  | .endItemS s => s.size + 1
  | .compoundS s => s.size + 1
  | .whileS c b => c.size + b.size + 1
  | .ifS c t => c.size + t.size + 1
  | .ifElseS c t e => c.size + t.size + e.size + 1
  | .returnS e => e.size + 1
  | .assignS _ ty e => ty.size + e.size + 1
  | .funCallS _ args => Shape.sizeList args + 1

/-- Total size of a list of shapes. -/
def Shape.sizeList : List Shape → Nat
  | [] => 0
  | s :: rest => s.size + Shape.sizeList rest

end

mutual

/-- `decodes t i s`: the arena of `t` unfolds from id `i` into the pure shape
`s` (and the relation stored at `i` carries `i` as its own id field). -/
def decodes (t : Tree) (i : ID) : Shape → Bool
  | .voidS => t.getRelation i == some (.Void i)
  | .intS => t.getRelation i == some (.Int i)
  | .floatS => t.getRelation i == some (.Float i)
  | .charS => t.getRelation i == some (.Char i)
  | .argS var_name ty =>
    match t.getRelation i with
    | some (.Arg i' vn type_id) => i' == i && vn == var_name && decodes t type_id ty
    | _ => false
  | .varS var_name =>
    match t.getRelation i with
    | some (.Var i' vn) => i' == i && vn == var_name
    | _ => false
  | .binopS a1 a2 =>
    match t.getRelation i with
    | some (.BinaryOp i' arg1_id arg2_id) =>
      i' == i && decodes t arg1_id a1 && decodes t arg2_id a2
    | _ => false
  | .itemS s next =>
    match t.getRelation i with
    | some (.Item i' stmt_id next_stmt_id) =>
      i' == i && decodes t stmt_id s && decodes t next_stmt_id next
    | _ => false
  | .endItemS s =>
    match t.getRelation i with
    | some (.EndItem i' stmt_id) => i' == i && decodes t stmt_id s
    | _ => false
  | .compoundS s =>
    match t.getRelation i with
    | some (.Compound i' start_id) => i' == i && decodes t start_id s
    | _ => false
  | .whileS c b =>
    match t.getRelation i with
    | some (.While i' cond_id body_id) =>
      i' == i && decodes t cond_id c && decodes t body_id b
    | _ => false
  | .ifS c th =>
    match t.getRelation i with
    | some (.If i' cond_id then_id) =>
      i' == i && decodes t cond_id c && decodes t then_id th
    | _ => false
  | .ifElseS c th e =>
    match t.getRelation i with
    | some (.IfElse i' cond_id then_id else_id) =>
      i' == i && decodes t cond_id c && decodes t then_id th && decodes t else_id e
    | _ => false
  | .returnS e =>
    match t.getRelation i with
    | some (.Return i' expr_id) => i' == i && decodes t expr_id e
    | _ => false
  | .assignS var_name ty e =>
    match t.getRelation i with
    | some (.Assign i' vn type_id expr_id) =>
      i' == i && vn == var_name && decodes t type_id ty && decodes t expr_id e
    | _ => false
  | .funCallS fun_name args =>
    match t.getRelation i with
    | some (.FunCall i' fn arg_ids) =>
      i' == i && fn == fun_name && decodesList t arg_ids args
    | _ => false

/-- Pointwise decoding of an id list against a shape list (equal lengths). -/
def decodesList (t : Tree) : List ID → List Shape → Bool
  | [], [] => true
  | i :: is, s :: ss => decodes t i s && decodesList t is ss
  | _, _ => false

end

/-- Decoding of an `Item`/`EndItem` chain against the list of its statement
shapes: a chain of n ≥ 1 statements is n−1 `Item` cells and one final
`EndItem` cell (an empty list never decodes — the data model has no empty
chains). -/
def decodesChain (t : Tree) (i : ID) : List Shape → Bool
  | [] => false
  | [s] =>
    match t.getRelation i with
    | some (.EndItem i' stmt_id) => i' == i && decodes t stmt_id s
    | _ => false
  | s :: rest =>
    match t.getRelation i with
    | some (.Item i' stmt_id next_stmt_id) =>
      i' == i && decodes t stmt_id s && decodesChain t next_stmt_id rest
    | _ => false

/-- Fuel bound for a chain. -/
def chainSize : List Shape → Nat
  | [] => 1
  | s :: rest => s.size + 1 + chainSize rest

/-- Shape of a function definition: name, return-type shape, argument
(name, type-shape) pairs, and the body's statement chain. -/
structure FunShape where
  fun_name : String
  ret : Shape
  args : List (String × Shape)
  chain : List Shape

/-- Decoding of a `FunDef`'s argument id list. -/
def decodesArgs (t : Tree) : List ID → List (String × Shape) → Bool
  | [], [] => true
  | a :: as, (nm, tyS) :: rest =>
    (match t.getRelation a with
     | some (.Arg a' nm' type_id) => a' == a && nm' == nm && decodes t type_id tyS
     | _ => false) && decodesArgs t as rest
  | _, _ => false

/-- Decoding of one function definition. -/
def decodesFun (t : Tree) (i : ID) (fs : FunShape) : Bool :=
  match t.getRelation i with
  | some (.FunDef i' nm return_type_id arg_ids body_id) =>
    i' == i && nm == fs.fun_name && decodes t return_type_id fs.ret &&
    decodesArgs t arg_ids fs.args &&
    (match t.getRelation body_id with
     | some (.Compound b' start_id) => b' == body_id && decodesChain t start_id fs.chain
     | _ => false)
  | _ => false

/-- Pointwise decoding of (function id, function shape) pairs. -/
def decodesFunList (t : Tree) : List (ID × FunShape) → Bool
  | [] => true
  | (i, fs) :: rest => decodesFun t i fs && decodesFunList t rest

/-- `decodesProg t funs`: the tree is a well-formed program — its root node
exists, stores a `TransUnit` whose id field is the root id and whose
`body_ids` equal the root's child list, and every child decodes as the
corresponding function shape. -/
def decodesProg (t : Tree) (funs : List (ID × FunShape)) : Bool :=
  match t.getNode t.getRoot with
  | some node =>
    match node.relation with
    | .TransUnit i' body_ids =>
      i' == t.getRoot && body_ids == node.children &&
      node.children == funs.map Prod.fst && decodesFunList t funs
    | _ => false
  | none => false

/-- Fuel bound for one function shape. -/
def FunShape.size (fs : FunShape) : Nat :=
  fs.ret.size + (fs.args.map (fun a => a.2.size + 1)).sum + chainSize fs.chain + 2

/-- Fuel bound for a whole program shape. -/
def progSize (funs : List (ID × FunShape)) : Nat :=
  (funs.map (fun p => p.2.size)).sum + 2

/-! Concrete input trees used by the counterexamples and code-bug
evaluations. -/

/-- Node builder for concrete arenas. -/
def mkN (i : ID) (r : AstRelation) (cs : List ID) : ID × AstNode := (i, ⟨i, r, cs⟩)

/-- The tree of `int f(int a) { return 1; }` (the integer literal is the `Int`
leaf node 9, as the parser emits it). -/
def treeFunA : Tree :=
  { arena := [
      mkN 1 (.TransUnit 1 [2]) [2],
      mkN 2 (.FunDef 2 "f" 3 [4] 6) [3, 4, 6],
      mkN 3 (.Int 3) [],
      mkN 4 (.Arg 4 "a" 5) [5],
      mkN 5 (.Int 5) [],
      mkN 6 (.Compound 6 7) [7],
      mkN 7 (.EndItem 7 8) [8],
      mkN 8 (.Return 8 9) [9],
      mkN 9 (.Int 9) []],
    max_id := 9, root_id := 1 }

/-- `treeFunA` after the single edit of renaming the formal `a` to `b` (the
freshly parsed tree; it happens to reuse the same ids, which the differ does
not rely on). -/
def treeFunB : Tree :=
  { arena := [
      mkN 1 (.TransUnit 1 [2]) [2],
      mkN 2 (.FunDef 2 "f" 3 [4] 6) [3, 4, 6],
      mkN 3 (.Int 3) [],
      mkN 4 (.Arg 4 "b" 5) [5],
      mkN 5 (.Int 5) [],
      mkN 6 (.Compound 6 7) [7],
      mkN 7 (.EndItem 7 8) [8],
      mkN 8 (.Return 8 9) [9],
      mkN 9 (.Int 9) []],
    max_id := 9, root_id := 1 }

/-- The function shape of `treeFunA` (well-formedness witness data). -/
def funShapeA : FunShape :=
  ⟨"f", .intS, [("a", .intS)], [.returnS .intS]⟩

/-- A well-formed tree with two top-level functions that share the name `f`:
`int f() { return 1; } int f(char c) { return 1; }`. -/
def treeDupNames : Tree :=
  { arena := [
      mkN 1 (.TransUnit 1 [2, 10]) [2, 10],
      mkN 2 (.FunDef 2 "f" 3 [] 6) [3, 6],
      mkN 3 (.Int 3) [],
      mkN 6 (.Compound 6 7) [7],
      mkN 7 (.EndItem 7 8) [8],
      mkN 8 (.Return 8 9) [9],
      mkN 9 (.Int 9) [],
      mkN 10 (.FunDef 10 "f" 11 [12] 14) [11, 12, 14],
      mkN 11 (.Int 11) [],
      mkN 12 (.Arg 12 "c" 13) [13],
      mkN 13 (.Char 13) [],
      mkN 14 (.Compound 14 15) [15],
      mkN 15 (.EndItem 15 16) [16],
      mkN 16 (.Return 16 17) [17],
      mkN 17 (.Int 17) []],
    max_id := 17, root_id := 1 }

/-- The program shape of `treeDupNames`. -/
def dupShapes : List (ID × FunShape) :=
  [(2, ⟨"f", .intS, [], [.returnS .intS]⟩),
   (10, ⟨"f", .intS, [("c", .charS)], [.returnS .intS]⟩)]

/-- A one-node target tree with `max_id = 9` for the `FunCall` insertion
collision. -/
def collisionTarget : Tree :=
  { arena := [mkN 9 (.Int 9) []], max_id := 9, root_id := 9 }

/-- A new tree containing the call `g(1)` (a `FunCall` with one argument). -/
def collisionNew : Tree :=
  { arena := [mkN 20 (.FunCall 20 "g" [21]) [21], mkN 21 (.Int 21) []],
    max_id := 21, root_id := 20 }

/-- A one-node target tree for the `While` insertion. -/
def whileTarget : Tree :=
  { arena := [mkN 1 (.TransUnit 1 []) []], max_id := 1, root_id := 1 }

/-- A new tree containing `while (1) { return 1; }`. -/
def whileNew : Tree :=
  { arena := [
      mkN 30 (.While 30 31 32) [31, 32],
      mkN 31 (.Int 31) [],
      mkN 32 (.Compound 32 33) [33],
      mkN 33 (.EndItem 33 34) [34],
      mkN 34 (.Return 34 35) [35],
      mkN 35 (.Int 35) []],
    max_id := 35, root_id := 30 }

/-- The tree of `int main() { while (1) { return 1; } return 1; }` — a
well-formed program whose body contains a `While` statement. -/
def treeWithWhile : Tree :=
  { arena := [
      mkN 1 (.TransUnit 1 [2]) [2],
      mkN 2 (.FunDef 2 "main" 3 [] 4) [3, 4],
      mkN 3 (.Int 3) [],
      mkN 4 (.Compound 4 5) [5],
      mkN 5 (.Item 5 6 7) [6, 7],
      mkN 6 (.While 6 8 9) [8, 9],
      mkN 8 (.Int 8) [],
      mkN 9 (.Compound 9 10) [10],
      mkN 10 (.EndItem 10 11) [11],
      mkN 11 (.Return 11 12) [12],
      mkN 12 (.Int 12) [],
      mkN 7 (.EndItem 7 13) [13],
      mkN 13 (.Return 13 14) [14],
      mkN 14 (.Int 14) []],
    max_id := 14, root_id := 1 }

/-- The function shape of `treeWithWhile`. -/
def whileFunShape : FunShape :=
  ⟨"main", .intS, [],
   [.whileS .intS (.compoundS (.endItemS (.returnS .intS))), .returnS .intS]⟩

/-! Theorems.

Helper lemmas about the decoders and `relations_match` come first; the
claim-level theorems follow. -/

/-- A decodable id resolves in the arena. -/
theorem decodes_isSome (s : Shape) (t : Tree) (i : ID) (h : decodes t i s = true) :
    ∃ r, t.getRelation i = some r := by
  cases hr : t.getRelation i with
  | some r => exact ⟨r, rfl⟩
  | none => cases s <;> simp [decodes, hr] at h

/-- Shape sizes are positive. -/
theorem Shape.size_pos (s : Shape) : 1 ≤ s.size := by
  cases s <;> simp [Shape.size]

/-- A member's size is bounded by the list size. -/
theorem Shape.size_le_sizeList {s : Shape} {ss : List Shape} (h : s ∈ ss) :
    s.size ≤ Shape.sizeList ss := by
  induction ss with
  | nil => cases h
  | cons a rest ih =>
    cases h with
    | head => simp [Shape.sizeList]
    | tail _ hmem => have := ih hmem; simp [Shape.sizeList]; omega

/-- The `FunCall` argument loop is reflexive on a decodable argument list
(auxiliary for `rm_refl`; the induction hypothesis on the fuel is passed
in). -/
theorem rmArgs_refl (t : Tree) (fuel : Nat)
    (IH : ∀ (s : Shape) (i : ID) (r : AstRelation), decodes t i s = true →
      t.getRelation i = some r → s.size ≤ fuel → relations_match fuel r r t t = some true) :
    ∀ (ids : List ID) (ss : List Shape), decodesList t ids ss = true →
      Shape.sizeList ss ≤ fuel →
      relationsMatchArgs (fun a b => relations_match fuel a b t t) t t ids ids =
        some true := by
  intro ids
  induction ids with
  | nil =>
    intro ss h _
    cases ss with
    | nil => rfl
    | cons s ss' => simp [decodesList] at h
  | cons i rest ih =>
    intro ss h hs
    cases ss with
    | nil => simp [decodesList] at h
    | cons s ss' =>
      simp only [decodesList, Bool.and_eq_true] at h
      obtain ⟨h1, h2⟩ := h
      obtain ⟨r, hr⟩ := decodes_isSome _ _ _ h1
      simp only [Shape.sizeList] at hs
      have hb := IH s i r h1 hr (by omega)
      have hrest := ih ss' h2 (by omega)
      simp [relationsMatchArgs, hr, hb, hrest]

/-- Boolean equality of strings is symmetric. -/
theorem strBeq_comm (a b : String) : (a == b) = (b == a) := by
  by_cases h : a = b
  · subst h; rfl
  · rw [beq_eq_false_iff_ne.mpr h, beq_eq_false_iff_ne.mpr (fun e => h e.symm)]

/-- The `FunCall` argument loop agrees in both orientations whenever both are
defined (auxiliary for `rm_symm`). -/
theorem rmArgs_symm (fuel : Nat) (t1 t2 : Tree)
    (IH : ∀ (r1 r2 : AstRelation) (b1 b2 : Bool),
      relations_match fuel r1 r2 t1 t2 = some b1 →
      relations_match fuel r2 r1 t2 t1 = some b2 → b1 = b2) :
    ∀ (ids1 ids2 : List ID) (b1 b2 : Bool),
      relationsMatchArgs (fun a b => relations_match fuel a b t1 t2) t1 t2 ids1 ids2 =
        some b1 →
      relationsMatchArgs (fun a b => relations_match fuel a b t2 t1) t2 t1 ids2 ids1 =
        some b2 →
      b1 = b2 := by
  intro ids1
  induction ids1 with
  | nil =>
    intro ids2 b1 b2 h1 h2
    simp only [relationsMatchArgs, Option.some.injEq] at h1
    subst h1
    cases ids2 with
    | nil =>
      simp only [relationsMatchArgs, Option.some.injEq] at h2
      subst h2; rfl
    | cons j rest => simp [relationsMatchArgs] at h2
  | cons i rest1 ih =>
    intro ids2 b1 b2 h1 h2
    cases ids2 with
    | nil => simp [relationsMatchArgs] at h1
    | cons j rest2 =>
      simp only [relationsMatchArgs, bind, Option.bind_eq_some, Option.some.injEq]
        at h1 h2
      obtain ⟨r1, hr1, r2, hr2, b, hb, brest, hbrest, hfin⟩ := h1
      obtain ⟨r2', hr2', r1', hr1', b', hb', brest', hbrest', hfin'⟩ := h2
      rw [hr1] at hr1'; rw [hr2] at hr2'
      cases hr1'; cases hr2'
      have e1 := IH _ _ _ _ hb hb'
      have e2 := ih rest2 _ _ hbrest hbrest'
      subst hfin; subst hfin'; rw [e1, e2]

set_option maxHeartbeats 2000000 in
/-- `relations_match` agrees in both orientations whenever both are defined
(in particular it is symmetric on the domain where no panic occurs). -/
theorem rm_symm : ∀ (fuel : Nat) (r1 r2 : AstRelation) (t1 t2 : Tree) (b1 b2 : Bool),
    relations_match fuel r1 r2 t1 t2 = some b1 →
    relations_match fuel r2 r1 t2 t1 = some b2 → b1 = b2 := by
  intro fuel
  induction fuel with
  | zero => intro r1 r2 t1 t2 b1 b2 h1 _; simp [relations_match] at h1
  | succ fuel IH =>
    intro r1 r2 t1 t2 b1 b2 h1 h2
    have IH' : ∀ (r1 r2 : AstRelation) (b1 b2 : Bool),
        relations_match fuel r1 r2 t1 t2 = some b1 →
        relations_match fuel r2 r1 t2 t1 = some b2 → b1 = b2 :=
      fun r1 r2 b1 b2 ha hb => IH r1 r2 t1 t2 b1 b2 ha hb
    cases r1 <;> cases r2 <;>
      try (simp only [relations_match, Option.some.injEq] at h1 h2;
            subst h1; subst h2; rfl)
    case TransUnit.TransUnit _ _ _ _ => exact Option.noConfusion h1
    case FunDef.FunDef _ _ _ _ _ _ _ _ _ _ => exact Option.noConfusion h1
    case Var.Var i1 vn1 i2 vn2 =>
      simp only [relations_match, Option.some.injEq] at h1 h2
      subst h1; subst h2; exact strBeq_comm vn1 vn2
    case Arg.Arg i1 vn1 ty1 i2 vn2 ty2 =>
      by_cases hvn : vn1 = vn2
      · subst hvn
        simp only [relations_match, eq_self_iff_true, if_true, bind,
          Option.bind_eq_some] at h1 h2
        obtain ⟨c1, hc1, c2, hc2, hm⟩ := h1
        obtain ⟨c2', hc2', c1', hc1', hm'⟩ := h2
        rw [hc1] at hc1'; rw [hc2] at hc2'
        cases hc1'; cases hc2'
        exact IH' _ _ _ _ hm hm'
      · simp only [relations_match, if_neg hvn,
          if_neg (Ne.symm hvn), Option.some.injEq] at h1 h2
        subst h1; subst h2; rfl
    case Assign.Assign i1 vn1 ty1 e1 i2 vn2 ty2 e2 =>
      by_cases hvn : vn1 = vn2
      · subst hvn
        simp only [relations_match, eq_self_iff_true, if_true, bind,
          Option.bind_eq_some] at h1 h2
        obtain ⟨r1, hr1, r2, hr2, b, hb, hrest⟩ := h1
        obtain ⟨r2', hr2', r1', hr1', b', hb', hrest'⟩ := h2
        rw [hr1] at hr1'; rw [hr2] at hr2'
        cases hr1'; cases hr2'
        have hbb := IH' _ _ _ _ hb hb'
        subst hbb
        cases b with
        | false =>
          simp at hrest hrest'
          subst hrest; subst hrest'; rfl
        | true =>
          simp only [if_true, Option.bind_eq_some] at hrest hrest'
          obtain ⟨c1, hc1, c2, hc2, hm⟩ := hrest
          obtain ⟨c2', hc2', c1', hc1', hm'⟩ := hrest'
          rw [hc1] at hc1'; rw [hc2] at hc2'
          cases hc1'; cases hc2'
          exact IH' _ _ _ _ hm hm'
      · simp only [relations_match, if_neg hvn,
          if_neg (Ne.symm hvn), Option.some.injEq] at h1 h2
        subst h1; subst h2; rfl
    case BinaryOp.BinaryOp i1 a11 a21 i2 a12 a22 =>
      simp only [relations_match, bind, Option.bind_eq_some] at h1 h2
      obtain ⟨r1, hr1, r2, hr2, b, hb, hrest⟩ := h1
      obtain ⟨r2', hr2', r1', hr1', b', hb', hrest'⟩ := h2
      rw [hr1] at hr1'; rw [hr2] at hr2'
      cases hr1'; cases hr2'
      have hbb := IH' _ _ _ _ hb hb'
      subst hbb
      cases b with
      | false =>
        simp at hrest hrest'
        subst hrest; subst hrest'; rfl
      | true =>
        simp only [if_true, Option.bind_eq_some] at hrest hrest'
        obtain ⟨c1, hc1, c2, hc2, hm⟩ := hrest
        obtain ⟨c2', hc2', c1', hc1', hm'⟩ := hrest'
        rw [hc1] at hc1'; rw [hc2] at hc2'
        cases hc1'; cases hc2'
        exact IH' _ _ _ _ hm hm'
    case EndItem.EndItem i1 s1 i2 s2 =>
      simp only [relations_match, bind, Option.bind_eq_some] at h1 h2
      obtain ⟨c1, hc1, c2, hc2, hm⟩ := h1
      obtain ⟨c2', hc2', c1', hc1', hm'⟩ := h2
      rw [hc1] at hc1'; rw [hc2] at hc2'
      cases hc1'; cases hc2'
      exact IH' _ _ _ _ hm hm'
    case Item.Item i1 s1 n1 i2 s2 n2 =>
      simp only [relations_match, bind, Option.bind_eq_some] at h1 h2
      obtain ⟨r1, hr1, r2, hr2, b, hb, hrest⟩ := h1
      obtain ⟨r2', hr2', r1', hr1', b', hb', hrest'⟩ := h2
      rw [hr1] at hr1'; rw [hr2] at hr2'
      cases hr1'; cases hr2'
      have hbb := IH' _ _ _ _ hb hb'
      subst hbb
      cases b with
      | false =>
        simp at hrest hrest'
        subst hrest; subst hrest'; rfl
      | true =>
        simp only [if_true, Option.bind_eq_some] at hrest hrest'
        obtain ⟨c1, hc1, c2, hc2, hm⟩ := hrest
        obtain ⟨c2', hc2', c1', hc1', hm'⟩ := hrest'
        rw [hc1] at hc1'; rw [hc2] at hc2'
        cases hc1'; cases hc2'
        exact IH' _ _ _ _ hm hm'
    case Compound.Compound i1 s1 i2 s2 =>
      simp only [relations_match, bind, Option.bind_eq_some] at h1 h2
      obtain ⟨c1, hc1, c2, hc2, hm⟩ := h1
      obtain ⟨c2', hc2', c1', hc1', hm'⟩ := h2
      rw [hc1] at hc1'; rw [hc2] at hc2'
      cases hc1'; cases hc2'
      exact IH' _ _ _ _ hm hm'
    case While.While i1 c1 b1x i2 c2 b2x =>
      simp only [relations_match, bind, Option.bind_eq_some] at h1 h2
      obtain ⟨r1, hr1, r2, hr2, b, hb, hrest⟩ := h1
      obtain ⟨r2', hr2', r1', hr1', b', hb', hrest'⟩ := h2
      rw [hr1] at hr1'; rw [hr2] at hr2'
      cases hr1'; cases hr2'
      have hbb := IH' _ _ _ _ hb hb'
      subst hbb
      cases b with
      | false =>
        simp at hrest hrest'
        subst hrest; subst hrest'; rfl
      | true =>
        simp only [if_true, Option.bind_eq_some] at hrest hrest'
        obtain ⟨c1, hc1, c2, hc2, hm⟩ := hrest
        obtain ⟨c2', hc2', c1', hc1', hm'⟩ := hrest'
        rw [hc1] at hc1'; rw [hc2] at hc2'
        cases hc1'; cases hc2'
        exact IH' _ _ _ _ hm hm'
    case If.If i1 c1 t1x i2 c2 t2x =>
      simp only [relations_match, bind, Option.bind_eq_some] at h1 h2
      obtain ⟨r1, hr1, r2, hr2, b, hb, hrest⟩ := h1
      obtain ⟨r2', hr2', r1', hr1', b', hb', hrest'⟩ := h2
      rw [hr1] at hr1'; rw [hr2] at hr2'
      cases hr1'; cases hr2'
      have hbb := IH' _ _ _ _ hb hb'
      subst hbb
      cases b with
      | false =>
        simp at hrest hrest'
        subst hrest; subst hrest'; rfl
      | true =>
        simp only [if_true, Option.bind_eq_some] at hrest hrest'
        obtain ⟨c1, hc1, c2, hc2, hm⟩ := hrest
        obtain ⟨c2', hc2', c1', hc1', hm'⟩ := hrest'
        rw [hc1] at hc1'; rw [hc2] at hc2'
        cases hc1'; cases hc2'
        exact IH' _ _ _ _ hm hm'
    case IfElse.IfElse i1 c1 t1x e1x i2 c2 t2x e2x =>
      simp only [relations_match, bind, Option.bind_eq_some] at h1 h2
      obtain ⟨r1, hr1, r2, hr2, b, hb, hrest⟩ := h1
      obtain ⟨r2', hr2', r1', hr1', b', hb', hrest'⟩ := h2
      rw [hr1] at hr1'; rw [hr2] at hr2'
      cases hr1'; cases hr2'
      have hbb := IH' _ _ _ _ hb hb'
      subst hbb
      cases b with
      | false =>
        simp at hrest hrest'
        subst hrest; subst hrest'; rfl
      | true =>
        simp only [if_true, bind, Option.bind_eq_some] at hrest hrest'
        obtain ⟨c1x, hc1, c2x, hc2, c, hc, hrest2⟩ := hrest
        obtain ⟨c2x', hc2', c1x', hc1', c', hc', hrest2'⟩ := hrest'
        rw [hc1] at hc1'; rw [hc2] at hc2'
        cases hc1'; cases hc2'
        have hcc := IH' _ _ _ _ hc hc'
        subst hcc
        cases c with
        | false =>
          simp at hrest2 hrest2'
          subst hrest2; subst hrest2'; rfl
        | true =>
          simp only [if_true, Option.bind_eq_some] at hrest2 hrest2'
          obtain ⟨d1, hd1, d2, hd2, hm⟩ := hrest2
          obtain ⟨d2', hd2', d1', hd1', hm'⟩ := hrest2'
          rw [hd1] at hd1'; rw [hd2] at hd2'
          cases hd1'; cases hd2'
          exact IH' _ _ _ _ hm hm'
    case Return.Return i1 e1x i2 e2x =>
      simp only [relations_match, bind, Option.bind_eq_some] at h1 h2
      obtain ⟨c1, hc1, c2, hc2, hm⟩ := h1
      obtain ⟨c2', hc2', c1', hc1', hm'⟩ := h2
      rw [hc1] at hc1'; rw [hc2] at hc2'
      cases hc1'; cases hc2'
      exact IH' _ _ _ _ hm hm'
    case FunCall.FunCall i1 n1 as1 i2 n2 as2 =>
      simp only [relations_match, bind, Option.bind_eq_some, Option.some.injEq]
        at h1 h2
      obtain ⟨a, ha, hfin⟩ := h1
      obtain ⟨a', ha', hfin'⟩ := h2
      have haa := rmArgs_symm fuel t1 t2 IH' as1 as2 a a' ha ha'
      subst haa
      subst hfin; subst hfin'
      rw [strBeq_comm n1 n2]

/-- `relations_match` is reflexive: comparing the relation stored at a
decodable id with itself (in the same tree) yields `true`, for any fuel of at
least the shape's size. -/
theorem rm_refl : ∀ (fuel : Nat) (s : Shape) (t : Tree) (i : ID) (r : AstRelation),
    decodes t i s = true → t.getRelation i = some r → s.size ≤ fuel →
    relations_match fuel r r t t = some true := by
  intro fuel
  induction fuel with
  | zero => intro s t i r _ _ hs; have := Shape.size_pos s; omega
  | succ fuel IH =>
    intro s t i r hd hr hs
    have IH' : ∀ (s : Shape) (i : ID) (r : AstRelation), decodes t i s = true →
        t.getRelation i = some r → s.size ≤ fuel →
        relations_match fuel r r t t = some true :=
      fun s i r h1 h2 h3 => IH s t i r h1 h2 h3
    cases s with
    | voidS =>
      simp only [decodes, beq_iff_eq] at hd
      rw [hr] at hd; cases hd; simp [relations_match]
    | intS =>
      simp only [decodes, beq_iff_eq] at hd
      rw [hr] at hd; cases hd; simp [relations_match]
    | floatS =>
      simp only [decodes, beq_iff_eq] at hd
      rw [hr] at hd; cases hd; simp [relations_match]
    | charS =>
      simp only [decodes, beq_iff_eq] at hd
      rw [hr] at hd; cases hd; simp [relations_match]
    | varS nm =>
      simp only [decodes, hr] at hd
      cases r <;> simp at hd
      simp [relations_match]
    | argS nm ty =>
      simp only [decodes, hr] at hd
      cases r <;> simp at hd
      case Arg i' vn type_id =>
        obtain ⟨⟨_, _⟩, h1⟩ := hd
        obtain ⟨r1, hr1⟩ := decodes_isSome _ _ _ h1
        simp only [Shape.size] at hs
        have e1 := IH' ty type_id r1 h1 hr1 (by omega)
        simp [relations_match, hr1, e1]
    | binopS a1 a2 =>
      simp only [decodes, hr] at hd
      cases r <;> simp at hd
      case BinaryOp i' id1 id2 =>
        obtain ⟨⟨_, h1⟩, h2⟩ := hd
        obtain ⟨r1, hr1⟩ := decodes_isSome _ _ _ h1
        obtain ⟨r2, hr2⟩ := decodes_isSome _ _ _ h2
        simp only [Shape.size] at hs
        have e1 := IH' a1 id1 r1 h1 hr1 (by omega)
        have e2 := IH' a2 id2 r2 h2 hr2 (by omega)
        simp [relations_match, hr1, hr2, e1, e2]
    | itemS sa next =>
      simp only [decodes, hr] at hd
      cases r <;> simp at hd
      case Item i' stmt_id next_id =>
        obtain ⟨⟨_, h1⟩, h2⟩ := hd
        obtain ⟨r1, hr1⟩ := decodes_isSome _ _ _ h1
        obtain ⟨r2, hr2⟩ := decodes_isSome _ _ _ h2
        simp only [Shape.size] at hs
        have e1 := IH' sa stmt_id r1 h1 hr1 (by omega)
        have e2 := IH' next next_id r2 h2 hr2 (by omega)
        simp [relations_match, hr1, hr2, e1, e2]
    | endItemS sa =>
      simp only [decodes, hr] at hd
      cases r <;> simp at hd
      case EndItem i' stmt_id =>
        obtain ⟨_, h1⟩ := hd
        obtain ⟨r1, hr1⟩ := decodes_isSome _ _ _ h1
        simp only [Shape.size] at hs
        have e1 := IH' sa stmt_id r1 h1 hr1 (by omega)
        simp [relations_match, hr1, e1]
    | compoundS sa =>
      simp only [decodes, hr] at hd
      cases r <;> simp at hd
      case Compound i' start_id =>
        obtain ⟨_, h1⟩ := hd
        obtain ⟨r1, hr1⟩ := decodes_isSome _ _ _ h1
        simp only [Shape.size] at hs
        have e1 := IH' sa start_id r1 h1 hr1 (by omega)
        simp [relations_match, hr1, e1]
    | whileS c b =>
      simp only [decodes, hr] at hd
      cases r <;> simp at hd
      case While i' cond_id body_id =>
        obtain ⟨⟨_, h1⟩, h2⟩ := hd
        obtain ⟨r1, hr1⟩ := decodes_isSome _ _ _ h1
        obtain ⟨r2, hr2⟩ := decodes_isSome _ _ _ h2
        simp only [Shape.size] at hs
        have e1 := IH' c cond_id r1 h1 hr1 (by omega)
        have e2 := IH' b body_id r2 h2 hr2 (by omega)
        simp [relations_match, hr1, hr2, e1, e2]
    | ifS c th =>
      simp only [decodes, hr] at hd
      cases r <;> simp at hd
      case If i' cond_id then_id =>
        obtain ⟨⟨_, h1⟩, h2⟩ := hd
        obtain ⟨r1, hr1⟩ := decodes_isSome _ _ _ h1
        obtain ⟨r2, hr2⟩ := decodes_isSome _ _ _ h2
        simp only [Shape.size] at hs
        have e1 := IH' c cond_id r1 h1 hr1 (by omega)
        have e2 := IH' th then_id r2 h2 hr2 (by omega)
        simp [relations_match, hr1, hr2, e1, e2]
    | ifElseS c th el =>
      simp only [decodes, hr] at hd
      cases r <;> simp at hd
      case IfElse i' cond_id then_id else_id =>
        obtain ⟨⟨⟨_, h1⟩, h2⟩, h3⟩ := hd
        obtain ⟨r1, hr1⟩ := decodes_isSome _ _ _ h1
        obtain ⟨r2, hr2⟩ := decodes_isSome _ _ _ h2
        obtain ⟨r3, hr3⟩ := decodes_isSome _ _ _ h3
        simp only [Shape.size] at hs
        have e1 := IH' c cond_id r1 h1 hr1 (by omega)
        have e2 := IH' th then_id r2 h2 hr2 (by omega)
        have e3 := IH' el else_id r3 h3 hr3 (by omega)
        simp [relations_match, hr1, hr2, hr3, e1, e2, e3]
    | returnS ea =>
      simp only [decodes, hr] at hd
      cases r <;> simp at hd
      case Return i' expr_id =>
        obtain ⟨_, h1⟩ := hd
        obtain ⟨r1, hr1⟩ := decodes_isSome _ _ _ h1
        simp only [Shape.size] at hs
        have e1 := IH' ea expr_id r1 h1 hr1 (by omega)
        simp [relations_match, hr1, e1]
    | assignS nm ty ea =>
      simp only [decodes, hr] at hd
      cases r <;> simp at hd
      case Assign i' vn type_id expr_id =>
        obtain ⟨⟨⟨_, _⟩, h1⟩, h2⟩ := hd
        obtain ⟨r1, hr1⟩ := decodes_isSome _ _ _ h1
        obtain ⟨r2, hr2⟩ := decodes_isSome _ _ _ h2
        simp only [Shape.size] at hs
        have e1 := IH' ty type_id r1 h1 hr1 (by omega)
        have e2 := IH' ea expr_id r2 h2 hr2 (by omega)
        simp [relations_match, hr1, hr2, e1, e2]
    | funCallS fn args =>
      simp only [decodes, hr] at hd
      cases r <;> simp at hd
      case FunCall i' fn' arg_ids =>
        obtain ⟨⟨_, _⟩, h1⟩ := hd
        simp only [Shape.size] at hs
        have e1 := rmArgs_refl t fuel IH' arg_ids args h1 (by omega)
        simp [relations_match, e1]

/-- On equal-length argument lists, the `FunCall` argument loop returns `true`
exactly when every aligned pair of argument relations matches. -/
theorem rmArgs_true_iff (fuel : Nat) (t1 t2 : Tree) :
    ∀ (ids1 ids2 : List ID), ids1.length = ids2.length →
      (relationsMatchArgs (fun a b => relations_match fuel a b t1 t2) t1 t2 ids1 ids2 =
        some true ↔
       ∀ p ∈ ids1.zip ids2, ∃ r1 r2, t1.getRelation p.1 = some r1 ∧
         t2.getRelation p.2 = some r2 ∧ relations_match fuel r1 r2 t1 t2 = some true) := by
  intro ids1
  induction ids1 with
  | nil =>
    intro ids2 hlen
    cases ids2 with
    | nil => simp [relationsMatchArgs]
    | cons j r => simp at hlen
  | cons i rest1 ih =>
    intro ids2 hlen
    cases ids2 with
    | nil => simp at hlen
    | cons j rest2 =>
      simp only [List.length_cons] at hlen
      have hlen' : rest1.length = rest2.length := by omega
      constructor
      · intro h
        simp only [relationsMatchArgs, bind, Option.bind_eq_some, Option.some.injEq] at h
        obtain ⟨r1, hr1, r2, hr2, b, hb, brest, hbrest, hfin⟩ := h
        have hbb : b = true ∧ brest = true := by cases b <;> cases brest <;> simp_all
        obtain ⟨hbT, hbrT⟩ := hbb
        subst hbT; subst hbrT
        intro p hp
        simp only [List.zip_cons_cons, List.mem_cons] at hp
        cases hp with
        | inl he => subst he; exact ⟨r1, r2, hr1, hr2, hb⟩
        | inr hm => exact (ih rest2 hlen').mp hbrest p hm
      · intro h
        obtain ⟨r1, r2, hr1, hr2, hm⟩ := h (i, j) (by simp)
        have hrest := (ih rest2 hlen').mpr (fun p hp => h p (by simp [hp]))
        simp [relationsMatchArgs, hr1, hr2, hm, hrest]

/-- C7 (amended). `relations_match` is reflexive on every relation kind it
accepts: the relation stored at any decodable id matches itself (first
conjunct). Whenever both orientations of a comparison return a boolean, the
booleans agree — symmetry on the domain where no panic occurs, which covers
all pairs whose `FunCall` argument lists have equal length (second conjunct).
And for two `FunCall` relations whose argument lists have equal length, the
match holds iff the function names are equal and the argument relations
shape-match pointwise (third conjunct). The unamended claim fails only on
`FunCall` pairs of unequal list lengths (`c7_funcall_match_counterexample`),
where the loop either ignores the surplus of the second list or panics. -/
theorem c7_relations_match_props :
    (∀ (fuel : Nat) (t : Tree) (i : ID) (s : Shape) (r : AstRelation),
      decodes t i s = true → t.getRelation i = some r → s.size ≤ fuel →
      relations_match fuel r r t t = some true) ∧
    (∀ (fuel : Nat) (r1 r2 : AstRelation) (t1 t2 : Tree) (b1 b2 : Bool),
      relations_match fuel r1 r2 t1 t2 = some b1 →
      relations_match fuel r2 r1 t2 t1 = some b2 → b1 = b2) ∧
    (∀ (fuel : Nat) (t1 t2 : Tree) (i1 i2 : ID) (n1 n2 : String) (as1 as2 : List ID),
      as1.length = as2.length →
      (relations_match (fuel + 1) (.FunCall i1 n1 as1) (.FunCall i2 n2 as2) t1 t2 =
        some true ↔
       n1 = n2 ∧ ∀ p ∈ as1.zip as2, ∃ r1 r2, t1.getRelation p.1 = some r1 ∧
         t2.getRelation p.2 = some r2 ∧
         relations_match fuel r1 r2 t1 t2 = some true)) := by
  refine ⟨fun fuel t i s r h1 h2 h3 => rm_refl fuel s t i r h1 h2 h3,
    rm_symm, ?_⟩
  intro fuel t1 t2 i1 i2 n1 n2 as1 as2 hlen
  constructor
  · intro h
    simp only [relations_match, bind, Option.bind_eq_some, Option.some.injEq] at h
    obtain ⟨a, ha, hfin⟩ := h
    have haa : a = true ∧ (n1 == n2) = true := by cases a <;> simp_all
    obtain ⟨haT, hn⟩ := haa
    subst haT
    exact ⟨by simpa using hn, (rmArgs_true_iff fuel t1 t2 as1 as2 hlen).mp ha⟩
  · rintro ⟨hn, hpw⟩
    have ha := (rmArgs_true_iff fuel t1 t2 as1 as2 hlen).mpr hpw
    subst hn
    simp [relations_match, ha]

/-- Witness for C7: the three conjuncts instantiated at concrete inputs — the
`Int` leaf 9 of `treeFunA` matches itself; two concrete comparisons that both
return a boolean agree; and the equal-length `FunCall` characterization at
two empty argument lists. -/
theorem c7_relations_match_witness :
    relations_match 1 (.Int 9) (.Int 9) treeFunA treeFunA = some true ∧
    (true : Bool) = true ∧
    (relations_match 1 (.FunCall 1 "g" []) (.FunCall 2 "g" []) treeFunA treeFunA =
      some true ↔
     "g" = "g" ∧ ∀ p ∈ ([] : List ID).zip ([] : List ID), ∃ r1 r2,
       treeFunA.getRelation p.1 = some r1 ∧ treeFunA.getRelation p.2 = some r2 ∧
       relations_match 0 r1 r2 treeFunA treeFunA = some true) :=
  ⟨c7_relations_match_props.1 1 treeFunA 9 .intS (.Int 9) (by decide) (by decide)
      (by decide),
   c7_relations_match_props.2.1 1 (.Int 9) (.Int 9) treeFunA treeFunA true true
      (by decide) (by decide),
   c7_relations_match_props.2.2 0 treeFunA treeFunA 1 2 "g" "g" [] [] rfl⟩

/-- `compare_items` on one and the same decodable chain (in one and the same
tree) reports no change: empty insert and delete sets, the tree untouched,
and the chain head's own id. -/
theorem compare_chain_self (T : Tree) :
    ∀ (ss : List Shape) (i : ID) (fuel : Nat),
      decodesChain T i ss = true → chainSize ss ≤ fuel →
      compare_items fuel i i T T = some (∅, ∅, T, i) := by
  intro ss
  induction ss with
  | nil => intro i fuel h _; simp [decodesChain] at h
  | cons s rest ih =>
    intro i fuel h hfuel
    cases rest with
    | nil =>
      simp only [decodesChain] at h
      cases hr : T.getRelation i with
      | none => rw [hr] at h; cases h
      | some r =>
        rw [hr] at h
        cases r <;> simp at h
        case EndItem i' stmt_id =>
          obtain ⟨hi, hdec⟩ := h
          subst hi
          obtain ⟨rs, hrs⟩ := decodes_isSome _ _ _ hdec
          simp only [chainSize] at hfuel
          cases fuel with
          | zero => omega
          | succ fuel =>
            have hrm := rm_refl fuel s T stmt_id rs hdec hrs (by omega)
            simp [compare_items, hr, hrs, hrm]
    | cons s2 rest2 =>
      simp only [decodesChain] at h
      cases hr : T.getRelation i with
      | none => rw [hr] at h; cases h
      | some r =>
        rw [hr] at h
        cases r <;> simp at h
        case Item i' stmt_id next_id =>
          obtain ⟨⟨hi, hdec⟩, hchain⟩ := h
          subst hi
          obtain ⟨rs, hrs⟩ := decodes_isSome _ _ _ hdec
          simp only [chainSize] at hfuel
          cases fuel with
          | zero => have := Shape.size_pos s; omega
          | succ fuel =>
            have hrm := rm_refl fuel s T stmt_id rs hdec hrs (by omega)
            have hrec := ih next_id fuel hchain (by simp only [chainSize]; omega)
            simp [compare_items, hr, hrs, hrm, hrec]

/-- The positional argument loop on one and the same decodable argument list
changes nothing: state untouched, `remaining_args` extended by the argument
ids in order, `args_have_changed` still false. -/
theorem diffArgPairs_self (T : Tree) (fuel : Nat) :
    ∀ (as : List ID) (fssa : List (String × Shape)) (ins del : Finset AstRelation)
      (tree : Tree) (rem : List ID),
      decodesArgs T as fssa = true →
      (fssa.map (fun a => a.2.size + 1)).sum ≤ fuel →
      diffArgPairs fuel T T as as ins del tree rem false =
        some (ins, del, tree, rem ++ as, false) := by
  intro as
  induction as with
  | nil =>
    intro fssa ins del tree rem h _
    cases fssa with
    | nil => simp [diffArgPairs]
    | cons p rest => simp [decodesArgs] at h
  | cons a as' ih =>
    intro fssa ins del tree rem h hfuel
    cases fssa with
    | nil => simp [decodesArgs] at h
    | cons p rest =>
      obtain ⟨nm, tyS⟩ := p
      simp only [decodesArgs, Bool.and_eq_true] at h
      obtain ⟨harg, hrest⟩ := h
      cases hr : T.getRelation a with
      | none => rw [hr] at harg; cases harg
      | some r =>
        rw [hr] at harg
        cases r <;> simp at harg
        case Arg a' vn ty_id =>
          obtain ⟨⟨ha, hvn⟩, hdec⟩ := harg
          subst ha; subst hvn
          obtain ⟨tyR, htyR⟩ := decodes_isSome _ _ _ hdec
          simp only [List.map_cons, List.sum_cons] at hfuel
          have hrm := rm_refl fuel tyS T ty_id tyR hdec htyR (by omega)
          have hrec := ih rest ins del tree (rem ++ [a']) hrest (by omega)
          simp [diffArgPairs, hr, htyR, hrm, hrec, List.append_assoc]

/-- Reconciling a decodable function definition against itself changes
nothing: the return type matches, the argument loop is a no-op, no `FunDef`
replacement fires, and the body chains compare clean. -/
theorem processMatchedFun_self (T : Tree) (fuel : Nat) (fid : ID) (fs : FunShape)
    (hdec : decodesFun T fid fs = true) (hfuel : fs.size ≤ fuel) :
    ∀ (nm : String) (ret_id : ID) (arg_ids : List ID) (body_id : ID)
      (ins del : Finset AstRelation),
      T.getRelation fid = some (.FunDef fid nm ret_id arg_ids body_id) →
      processMatchedFun fuel T T fid nm ret_id arg_ids body_id ret_id arg_ids body_id
        ins del T = some (ins, del, T) := by
  intro nm ret_id arg_ids body_id ins del hrel
  simp only [decodesFun, hrel, Bool.and_eq_true, beq_iff_eq] at hdec
  obtain ⟨⟨⟨⟨_, _⟩, hret⟩, hargs⟩, hbody⟩ := hdec
  obtain ⟨retR, hretR⟩ := decodes_isSome _ _ _ hret
  simp only [FunShape.size] at hfuel
  have hrm := rm_refl fuel fs.ret T ret_id retR hret hretR (by omega)
  have hpairs := diffArgPairs_self T fuel arg_ids fs.args ins del T [] hargs (by omega)
  cases hb : T.getRelation body_id with
  | none => rw [hb] at hbody; cases hbody
  | some rb =>
    rw [hb] at hbody
    cases rb <;> simp at hbody
    case Compound b' start_id =>
      obtain ⟨hb', hchain⟩ := hbody
      subst hb'
      have hcomp := compare_chain_self T fs.chain start_id fuel hchain (by omega)
      simp [processMatchedFun, hretR, hrm, hpairs, List.drop_length,
        insertExtraArgs, hb, hcomp]

/-- Pointwise decoding extends to members. -/
theorem decodesFunList_mem (T : Tree) :
    ∀ (funs : List (ID × FunShape)) (p : ID × FunShape),
      decodesFunList T funs = true → p ∈ funs → decodesFun T p.1 p.2 = true := by
  intro funs
  induction funs with
  | nil => intro p _ hp; cases hp
  | cons q rest ih =>
    intro p hdec hp
    obtain ⟨c, fsc⟩ := q
    simp only [decodesFunList, Bool.and_eq_true] at hdec
    cases hp with
    | head => exact hdec.1
    | tail _ hp' => exact ih p hdec.2 hp'

/-- `HashMap::insert` on a fresh key appends. -/
theorem insertMark_fresh :
    ∀ (marks : List (ID × Bool)) (i : ID) (v : Bool),
      i ∉ marks.map Prod.fst → insertMark marks i v = marks ++ [(i, v)] := by
  intro marks
  induction marks with
  | nil => intro i v _; rfl
  | cons q rest ih =>
    intro i v hni
    simp only [List.map_cons, List.mem_cons] at hni
    push_neg at hni
    simp [insertMark, Ne.symm hni.1, ih i v hni.2]

/-- `HashMap::insert` on a key held only by the last binding replaces it. -/
theorem insertMark_last :
    ∀ (marks : List (ID × Bool)) (i : ID) (v w : Bool),
      i ∉ marks.map Prod.fst →
      insertMark (marks ++ [(i, w)]) i v = marks ++ [(i, v)] := by
  intro marks
  induction marks with
  | nil => intro i v w _; simp [insertMark]
  | cons q rest ih =>
    intro i v w hni
    simp only [List.map_cons, List.mem_cons] at hni
    push_neg at hni
    simp [insertMark, Ne.symm hni.1, ih i v w hni.2]

/-- Scanning the new root's children for a previous function's name, on one
and the same tree with pairwise-distinct function names, finds exactly that
function, reconciles it without changes, and appends its id to
`matching_new_funs`. -/
theorem searchNewFuns_found (T : Tree) (fuel : Nat)
    (fid : ID) (fs : FunShape) (ret_id : ID) (arg_ids : List ID) (body_id : ID)
    (hrel : T.getRelation fid = some (.FunDef fid fs.fun_name ret_id arg_ids body_id))
    (hdecf : decodesFun T fid fs = true) (hfuel : fs.size ≤ fuel) :
    ∀ (funs2 : List (ID × FunShape)) (ins del : Finset AstRelation) (matched : List ID),
      decodesFunList T funs2 = true →
      (funs2.map (fun p => p.2.fun_name)).Nodup →
      (fid, fs) ∈ funs2 →
      searchNewFuns fuel T T fid fs.fun_name ret_id arg_ids body_id
        (funs2.map Prod.fst) ins del T matched =
        some (ins, del, T, matched ++ [fid], true) := by
  intro funs2
  induction funs2 with
  | nil => intro ins del matched _ _ hmem; cases hmem
  | cons q rest ih =>
    obtain ⟨c, fsc⟩ := q
    intro ins del matched hdecl hnodup hmem
    simp only [decodesFunList, Bool.and_eq_true] at hdecl
    obtain ⟨hdech, hdecr⟩ := hdecl
    simp only [List.map_cons, List.nodup_cons] at hnodup
    obtain ⟨hnotin, hnodup'⟩ := hnodup
    have hdech' := hdech
    simp only [decodesFun] at hdech'
    cases hcr : T.getRelation c with
    | none => rw [hcr] at hdech'; cases hdech'
    | some rc =>
      rw [hcr] at hdech'
      cases rc <;> simp only [Bool.and_eq_true, beq_iff_eq] at hdech' <;>
        try exact Bool.noConfusion hdech'
      case FunDef c' cnm crt cas cbd =>
        obtain ⟨⟨⟨⟨hc', hcnm⟩, _⟩, _⟩, _⟩ := hdech'
        by_cases hname : fs.fun_name = fsc.fun_name
        · have hpair : (fid, fs) = (c, fsc) := by
            cases hmem with
            | head => rfl
            | tail _ hmem' =>
              exfalso
              exact hnotin (hname ▸ List.mem_map.mpr ⟨(fid, fs), hmem', rfl⟩)
          rw [Prod.mk.injEq] at hpair
          obtain ⟨hfid, hfs⟩ := hpair
          subst hfid
          subst hfs
          have heq := hrel.symm.trans hcr
          injection heq with heq'
          injection heq' with e0 e1 e2 e3 e4
          subst e2
          subst e3
          subst e4
          have hproc := processMatchedFun_self T fuel fid fs hdecf hfuel fs.fun_name
            ret_id arg_ids body_id ins del hrel
          subst e0
          subst e1
          simp [searchNewFuns, hcr, hproc]
        · have hmem' : (fid, fs) ∈ rest := by
            cases hmem with
            | head => exact absurd rfl hname
            | tail _ hmem' => exact hmem'
          have hrec := ih ins del matched hdecr hnodup' hmem'
          simp [searchNewFuns, hcr, hcnm, hname, hrec]

/-- A decoded function id stores a `FunDef` with its own id and its shape's
name. -/
theorem decodesFun_getRelation (T : Tree) (i : ID) (fs : FunShape)
    (h : decodesFun T i fs = true) :
    ∃ rt as bd, T.getRelation i = some (.FunDef i fs.fun_name rt as bd) := by
  simp only [decodesFun] at h
  cases hr : T.getRelation i with
  | none => rw [hr] at h; cases h
  | some r =>
    rw [hr] at h
    cases r <;> simp only [Bool.and_eq_true, beq_iff_eq] at h <;>
      try exact Bool.noConfusion h
    case FunDef i' nm rt as bd =>
      obtain ⟨⟨⟨⟨hi, hnm⟩, _⟩, _⟩, _⟩ := h
      subst hi; subst hnm
      exact ⟨rt, as, bd, rfl⟩

/-- With pairwise-distinct function names, the decoded function ids are also
pairwise distinct (two equal ids would store one relation and hence one
name). -/
theorem decodesFunList_ids_nodup (T : Tree) :
    ∀ (funs : List (ID × FunShape)), decodesFunList T funs = true →
      (funs.map (fun p => p.2.fun_name)).Nodup → (funs.map Prod.fst).Nodup := by
  intro funs
  induction funs with
  | nil => intro _ _; simp
  | cons q rest ih =>
    obtain ⟨c, fsc⟩ := q
    intro hdec hnn
    simp only [decodesFunList, Bool.and_eq_true] at hdec
    obtain ⟨hdech, hdecr⟩ := hdec
    simp only [List.map_cons, List.nodup_cons] at hnn ⊢
    obtain ⟨hnotin, hnn'⟩ := hnn
    refine ⟨?_, ih hdecr hnn'⟩
    intro hcin
    obtain ⟨p, hp, hpc⟩ := List.mem_map.mp hcin
    have hdp := decodesFunList_mem T rest p hdecr hp
    obtain ⟨rt1, as1, bd1, h1⟩ := decodesFun_getRelation T c fsc hdech
    obtain ⟨rt2, as2, bd2, h2⟩ := decodesFun_getRelation T p.1 p.2 hdp
    rw [hpc] at h2
    have heq := h1.symm.trans h2
    injection heq with heq'
    injection heq' with _ hnmeq _ _ _
    exact hnotin (hnmeq ▸ List.mem_map.mpr ⟨p, hp, rfl⟩)

/-- The main loop of `get_diff_relation_set` over the previous functions, on
one and the same well-formed tree with distinct names: state unchanged, every
function ends up marked `false` and recorded as matched, in order. -/
theorem prevFunsLoop_self (T : Tree) (fuel : Nat) (funs : List (ID × FunShape))
    (hall : decodesFunList T funs = true)
    (hnames : (funs.map (fun p => p.2.fun_name)).Nodup)
    (hfuel : ∀ p ∈ funs, (p : ID × FunShape).2.size ≤ fuel) :
    ∀ (funs2 : List (ID × FunShape)) (ins del : Finset AstRelation)
      (marks : List (ID × Bool)) (matched : List ID),
      (∀ p ∈ funs2, p ∈ funs) →
      (∀ p ∈ funs2, (p : ID × FunShape).1 ∉ marks.map Prod.fst) →
      (funs2.map Prod.fst).Nodup →
      prevFunsLoop fuel T T (funs.map Prod.fst) (funs2.map Prod.fst) ins del T marks
        matched =
        some (ins, del, T, marks ++ funs2.map (fun p => (p.1, false)),
          matched ++ funs2.map Prod.fst) := by
  intro funs2
  induction funs2 with
  | nil => intro ins del marks matched _ _ _; simp [prevFunsLoop]
  | cons q rest ih =>
    obtain ⟨c, fsc⟩ := q
    intro ins del marks matched hsub hfresh hnodup
    have hmemf : (c, fsc) ∈ funs := hsub _ (List.mem_cons_self _ _)
    have hdecf := decodesFunList_mem T funs _ hall hmemf
    obtain ⟨rt, as, bd, hrel⟩ := decodesFun_getRelation T c fsc hdecf
    have hsearch := searchNewFuns_found T fuel c fsc rt as bd hrel hdecf
      (hfuel _ hmemf) funs ins del matched hall hnames hmemf
    have hcfresh := hfresh _ (List.mem_cons_self _ _)
    have hm1 : insertMark marks c true = marks ++ [(c, true)] :=
      insertMark_fresh marks c true hcfresh
    have hm2 : insertMark (marks ++ [(c, true)]) c false = marks ++ [(c, false)] :=
      insertMark_last marks c false true hcfresh
    simp only [List.map_cons, List.nodup_cons] at hnodup
    have hrec := ih ins del (marks ++ [(c, false)]) (matched ++ [c])
      (fun p hp => hsub p (List.mem_cons_of_mem _ hp))
      (fun p hp => by
        simp only [List.map_append, List.mem_append, List.map_cons, List.map_nil,
          List.mem_singleton]
        push_neg
        refine ⟨hfresh p (List.mem_cons_of_mem _ hp), ?_⟩
        intro he
        exact hnodup.1 (he ▸ List.mem_map.mpr ⟨p, hp, rfl⟩))
      hnodup.2
    simp [prevFunsLoop, hrel, hm1, hsearch, hm2, hrec, List.append_assoc]

/-- `deleteMarkedLoop` on all-false marks deletes nothing and collects the
ids in order. -/
theorem deleteMarkedLoop_all_false (fuel : Nat) :
    ∀ (funs2 : List (ID × FunShape)) (del : Finset AstRelation) (tree : Tree)
      (rem : List ID),
      deleteMarkedLoop fuel (funs2.map (fun p => (p.1, false))) del tree rem =
        some (del, tree, rem ++ funs2.map Prod.fst) := by
  intro funs2
  induction funs2 with
  | nil => intro del tree rem; simp [deleteMarkedLoop]
  | cons q rest ih =>
    intro del tree rem
    simp [deleteMarkedLoop, ih, List.append_assoc]

/-- `insertNewFunsLoop` inserts nothing when every new child was matched. -/
theorem insertNewFunsLoop_all_matched (fuel : Nat) (new_ast : Tree) :
    ∀ (cs : List ID) (matched : List ID) (ins : Finset AstRelation) (tree : Tree)
      (rem : List ID),
      (∀ c ∈ cs, c ∈ matched) →
      insertNewFunsLoop fuel new_ast cs matched ins tree rem =
        some (ins, tree, rem) := by
  intro cs
  induction cs with
  | nil => intro matched ins tree rem _; rfl
  | cons c rest ih =>
    intro matched ins tree rem hmem
    have hc : c ∈ matched := hmem c (List.mem_cons_self _ _)
    simp [insertNewFunsLoop, hc,
      ih matched ins tree rem (fun x hx => hmem x (List.mem_cons_of_mem _ hx))]

/-- A member function's shape size is bounded by the program bound. -/
theorem FunShape.size_le_progSize {p : ID × FunShape} {funs : List (ID × FunShape)}
    (h : p ∈ funs) : p.2.size ≤ progSize funs := by
  have hm : p.2.size ∈ funs.map (fun q => q.2.size) := List.mem_map.mpr ⟨p, h, rfl⟩
  have := List.single_le_sum (fun x _ => Nat.zero_le x) _ hm
  unfold progSize
  omega

set_option maxHeartbeats 4000000 in
/-- C4 (amended). For every well-formed tree whose top-level function names
are pairwise distinct, diffing the tree against itself reports no change at
all: `get_diff_relation_set fuel T T = some (∅, ∅, T)` — empty insert and
delete sets and the maintained tree returned unchanged, so every node keeps
its previous id and the flat relation set is exactly that of `T`. The fuel
only needs to cover the program's size bound `progSize funs`. -/
theorem c4_diff_self_of_wf (T : Tree) (funs : List (ID × FunShape)) (fuel : Nat)
    (hwf : decodesProg T funs = true)
    (hnames : (funs.map (fun p => p.2.fun_name)).Nodup)
    (hfuel : progSize funs ≤ fuel) :
    get_diff_relation_set fuel T T = some (∅, ∅, T) := by
  simp only [decodesProg] at hwf
  cases hn : T.getNode T.getRoot with
  | none => rw [hn] at hwf; cases hwf
  | some node =>
    rw [hn] at hwf
    obtain ⟨nid, nrel, nchildren⟩ := node
    cases nrel <;> simp only [Bool.and_eq_true, beq_iff_eq] at hwf <;>
      try exact Bool.noConfusion hwf
    case TransUnit i' body_ids =>
      obtain ⟨⟨⟨hi', hbids⟩, hchild⟩, hdecl⟩ := hwf
      have hids := decodesFunList_ids_nodup T funs hdecl hnames
      have hloop := prevFunsLoop_self T fuel funs hdecl hnames
        (fun p hp => le_trans (FunShape.size_le_progSize hp) hfuel)
        funs ∅ ∅ [] [] (fun p hp => hp) (fun p _ => by simp) hids
      have hdel := deleteMarkedLoop_all_false fuel funs ∅ T []
      have hins := insertNewFunsLoop_all_matched fuel T (funs.map Prod.fst)
        (funs.map Prod.fst) ∅ T (funs.map Prod.fst) (fun c hc => hc)
      have hrootrel : T.getRelation T.getRoot = some (.TransUnit i' body_ids) := by
        rw [Tree.getNode] at hn
        rw [Tree.getRelation, hn]
        rfl
      simp [get_diff_relation_set, hn, hchild, hloop, hdel, hins, hrootrel, hbids,
        List.all_eq_true]

/-- Witness for C4: the single-function tree `treeFunA` of
`int f(int a) { return 1; }` is well-formed with the one function shape
`funShapeA` and a duplicate-free name list, and diffing it against itself
yields `(∅, ∅, treeFunA)`. -/
theorem c4_diff_self_witness :
    get_diff_relation_set 11 treeFunA treeFunA = some (∅, ∅, treeFunA) :=
  c4_diff_self_of_wf treeFunA [(2, funShapeA)] 11 (by decide) (by decide) (by decide)

/-- C1. The delta engine of `run_ddlog_type_checker` never applies the
`delete_set`: its resulting fact store does not depend on that argument at
all (first conjunct), so after a step whose delta deletes a relation the
store still contains that relation (remaining conjuncts evaluate the engine
on a store holding the converted `Int 1` fact with a delta that deletes
`Int 1`: the store is unchanged, where the claimed equivalence with a
from-scratch evaluation of `(prev ∪ inserts) \ deletes` requires the empty
store). -/
theorem c1_engine_ignores_delete_set :
    (∀ store ins d1 d2,
      run_ddlog_type_checker store ins d1 = run_ddlog_type_checker store ins d2) ∧
    run_ddlog_type_checker {DDRecord.Int 1} ∅ {AstRelation.Int 1} =
      some {DDRecord.Int 1} ∧
    ({DDRecord.Int 1} : Finset DDRecord) ≠ ∅ :=
  ⟨fun _ _ _ _ => rfl, by decide, by decide⟩

/-- C2. Evaluating `get_diff_relation_set` on the pair (`treeFunA`,
`treeFunB`) — the same program before and after renaming the unused formal
`a` to `b` — produces sets for which removing `delete_set` from the flat
relation set of `prev` and adding `insert_set` does **not** yield the flat
relation set of the updated tree: the renamed `Arg`'s old relation is never
deleted, so the left-hand side keeps both `Arg` versions while the updated
tree has only the new one. -/
theorem c2_diff_rename_violates_delta_equation :
    (get_diff_relation_set 11 treeFunA treeFunB).elim false
      (fun r => decide (((get_initial_relation_set treeFunA \ r.2.1) ∪ r.1) ≠
        get_initial_relation_set r.2.2)) = true := by decide

/-- C3. On the rename-a-formal edit (`treeFunA` to `treeFunB`), the differ's
`insert_set` is exactly the new `Arg` relation as the claim states, but its
`delete_set` is empty — the old `Arg` relation `Arg 4 "a" 5` is **not**
placed in the delete set, contradicting the claim (last conjunct). -/
theorem c3_diff_rename_delete_set_empty :
    (get_diff_relation_set 11 treeFunA treeFunB).elim false
      (fun r => decide (r.1 = {AstRelation.Arg 4 "b" 5} ∧
        r.2.1 = (∅ : Finset AstRelation))) = true ∧
    (∅ : Finset AstRelation) ≠ {AstRelation.Arg 4 "a" 5} := by
  exact ⟨by decide, by decide⟩

/-- C4 (counterexample). `treeDupNames` is a well-formed tree (it decodes as a
program, satisfying the §3 invariants), yet `get_diff_relation_set` applied to
it twice returns non-empty insert and delete sets: its two functions share
the name `f`, so the second one is diffed against the body of the first and
then re-inserted wholesale. This refutes `diff(T, T) = (∅, ∅, T)` for
well-formed trees in general. -/
theorem c4_diff_self_counterexample :
    decodesProg treeDupNames dupShapes = true ∧
    (get_diff_relation_set 40 treeDupNames treeDupNames).elim false
      (fun r => decide (¬ (r.1 = ∅ ∧ r.2.1 = ∅))) = true := by
  exact ⟨by decide, by decide⟩

/-- C5. Inserting the `FunCall` subtree `g(1)` of `collisionNew` into
`collisionTarget` (whose `max_id` is 9): the argument subtree is allocated the
fresh id 10, and then the `FunCall` relation itself is **also** given id 10 —
`ast.max_id + 1` is computed from the tree as it was before the child
recursion — overwriting the argument's node (the final arena has 2 nodes, not
3, and the orphaned `Int 10` relation sits in the insert set). The claim that
the fresh id is taken after child insertion (which would give id 11 here and
never collide) is false for the `FunCall` (and likewise `TransUnit`)
variants. -/
theorem c5_funcall_insert_id_collision :
    (insert_onwards 10 20 collisionTarget collisionNew).elim false
      (fun r => decide (r.2.2 = 10 ∧ AstRelation.Int 10 ∈ r.1 ∧
        r.2.1.getRelation 10 = some (.FunCall 10 "g" [10]) ∧
        r.2.1.arena.length = 2)) = true := by decide

/-- C6. Inserting the `While` subtree of `whileNew` into `whileTarget`
materializes the relation `If 7 2 6` — an `If`, not a `While` — both in the
target tree (at the returned id) and in the insert set. -/
theorem c6_while_insert_materializes_if :
    (insert_onwards 30 30 whileTarget whileNew).elim false
      (fun r => decide (r.2.1.getRelation r.2.2 = some (.If 7 2 6) ∧
        AstRelation.If 7 2 6 ∈ r.1 ∧ AstRelation.While 7 2 6 ∉ r.1)) = true := by decide

/-- C7 (counterexample). Two `FunCall` relations with arg lists of lengths 0
and 1 and the same name: `relations_match` returns `true` although the
lengths differ (refuting the claimed "holds iff … equal length … for any
lengths"), and in the swapped order it panics (out-of-bounds index) rather
than returning a boolean — so the function is not symmetric either. -/
theorem c7_funcall_match_counterexample :
    relations_match 5 (.FunCall 1 "f" []) (.FunCall 2 "f" [7]) Tree.new Tree.new =
      some true ∧
    List.length ([] : List ID) ≠ List.length [(7 : ID)] ∧
    relations_match 5 (.FunCall 2 "f" [7]) (.FunCall 1 "f" []) Tree.new Tree.new =
      none := by
  exact ⟨by decide, by decide, by decide⟩

/-- C8. `treeWithWhile` conforms to the data model (first conjunct: it decodes
as a program containing a `While` statement with an `Int` condition and
well-typed bodies, which the claim says the checker accepts), yet
`type_check` panics on it (`none`) instead of returning a verdict:
`type_check_statement` has no case for `While` (nor `If`/`IfElse`) and hits
`panic!("Unexpected syntax")`. -/
theorem c8_type_check_panics_on_while :
    decodesProg treeWithWhile [(2, whileFunShape)] = true ∧
    type_check 40 treeWithWhile = none := by
  exact ⟨by decide, by decide⟩

/-- C9. `get_equiv_ddvalue` maps the `Float` variant to a `Void` record with
the same id (first conjunct), while every other converted variant maps to the
record of its own tag with identical fields — so the delta engine receives
float type nodes encoded as void. -/
theorem c9_float_converts_to_void :
    (∀ id, get_equiv_ddvalue (.Float id) = some (.Void id)) ∧
    (∀ id, get_equiv_ddvalue (.Void id) = some (.Void id)) ∧
    (∀ id, get_equiv_ddvalue (.Int id) = some (.Int id)) ∧
    (∀ id, get_equiv_ddvalue (.Char id) = some (.Char id)) ∧
    (∀ id bs, get_equiv_ddvalue (.TransUnit id bs) = some (.TransUnit id bs)) ∧
    (∀ id nm rt as bd,
      get_equiv_ddvalue (.FunDef id nm rt as bd) = some (.FunDef id nm rt as bd)) ∧
    (∀ id nm as, get_equiv_ddvalue (.FunCall id nm as) = some (.FunCall id nm as)) ∧
    (∀ id nm ty e,
      get_equiv_ddvalue (.Assign id nm ty e) = some (.Assign id nm ty e)) ∧
    (∀ id e, get_equiv_ddvalue (.Return id e) = some (.Return id e)) ∧
    (∀ id s, get_equiv_ddvalue (.Compound id s) = some (.Compound id s)) ∧
    (∀ id s n, get_equiv_ddvalue (.Item id s n) = some (.Item id s n)) ∧
    (∀ id s, get_equiv_ddvalue (.EndItem id s) = some (.EndItem id s)) ∧
    (∀ id a b, get_equiv_ddvalue (.BinaryOp id a b) = some (.BinaryOp id a b)) ∧
    (∀ id nm, get_equiv_ddvalue (.Var id nm) = some (.Var id nm)) ∧
    (∀ id nm ty, get_equiv_ddvalue (.Arg id nm ty) = some (.Arg id nm ty)) := by
  exact ⟨fun _ => rfl, fun _ => rfl, fun _ => rfl, fun _ => rfl, fun _ _ => rfl,
    fun _ _ _ _ _ => rfl, fun _ _ _ => rfl, fun _ _ _ _ => rfl, fun _ _ => rfl,
    fun _ _ => rfl, fun _ _ _ => rfl, fun _ _ => rfl, fun _ _ _ => rfl,
    fun _ _ => rfl, fun _ _ _ => rfl⟩

/-- C10. `Tree.deleteNode` always re-seats `max_id` as the maximum remaining
arena key after the removal (first conjunct), and on a tree whose arena holds
exactly one node, deleting that node fails — the `unwrap` of
`keys().max()` panics on the emptied arena — instead of leaving an empty
tree (second conjunct). -/
theorem c10_delete_node_reseats_max_id :
    (∀ (t : Tree) (i : ID) (t' : Tree), t.deleteNode i = some t' →
      maxKey t'.arena = some t'.max_id) ∧
    (∀ (t : Tree) (i : ID) (n : AstNode), t.arena = [(i, n)] →
      t.deleteNode i = none) := by
  constructor
  · intro t i t' h
    simp only [Tree.deleteNode] at h
    cases hm : maxKey (removeA t.arena i) with
    | none => rw [hm] at h; exact absurd h (by simp)
    | some m =>
      rw [hm] at h
      cases h
      exact hm
  · intro t i n h
    unfold Tree.deleteNode
    rw [h]
    simp [removeA, maxKey]

/-- Witness for C10: on the two-node tree `{1 ↦ Int 1, 2 ↦ Int 2}` deleting
node 2 re-seats `max_id` to 1, and on the singleton tree `{1 ↦ Int 1}`
deleting node 1 panics. -/
theorem c10_delete_node_witness :
    maxKey ({ arena := [mkN 1 (.Int 1) []], max_id := 1, root_id := 1 } : Tree).arena =
      some ({ arena := [mkN 1 (.Int 1) []], max_id := 1, root_id := 1 } : Tree).max_id ∧
    Tree.deleteNode ⟨[mkN 1 (.Int 1) []], 1, 1⟩ 1 = none :=
  ⟨c10_delete_node_reseats_max_id.1 ⟨[mkN 1 (.Int 1) [], mkN 2 (.Int 2) []], 2, 1⟩ 2
      ⟨[mkN 1 (.Int 1) []], 1, 1⟩ (by decide),
   c10_delete_node_reseats_max_id.2 ⟨[mkN 1 (.Int 1) []], 1, 1⟩ 1 ⟨1, .Int 1, []⟩ rfl⟩

end Cerium
